import Mathlib

/-!
Verification of the seat-reservation core of `src/db_3.js` (a ticket-booking
service backed by a transactional document store).

The seat collection is embedded as a `List Seat`; Mongo's
`findOneAndUpdate` becomes `updateFirst` (update the first record matching a
filter), `updateMany` becomes a conditional `map`, and a transaction that
aborts returns the original list.  Timestamps are integers (milliseconds);
`ttlSeconds * 1000` mirrors `new Date(now.getTime() + ttlSeconds * 1000)`.
-/

namespace TicketBooking

inductive SeatStatus
  | available
  | locked
  | booked
deriving DecidableEq, Repr

/-- One document of the `Seat` collection (schema lines 11–18 of the source).
`bookingId` is an opaque ObjectId, modelled as a `Nat` handed out by a
counter in `DBState`. -/
structure Seat where
  eventId : String
  seatNumber : String
  status : SeatStatus
  lockOwner : Option String
  lockExpiresAt : Option Int
  bookingId : Option Nat
deriving DecidableEq, Repr

/-- One document of the `Booking` collection (schema lines 22–27).  `seats`
keeps just the seat numbers, as the source stores `{ seatNumber }` wrappers. -/
structure Booking where
  id : Nat
  eventId : String
  ownerId : String
  seats : List String
  createdAt : Int
deriving DecidableEq, Repr

/-- The store state visible to the reservation core: the seat collection,
the booking collection, and the ObjectId counter. -/
structure DBState where
  seats : List Seat
  bookings : List Booking
  nextBookingId : Nat
deriving DecidableEq, Repr

/-- `findOneAndUpdate`: update the first record satisfying `p` with `f`,
returning the updated record (`new: true`) and the new collection. -/
def updateFirst (p : Seat → Bool) (f : Seat → Seat) : List Seat → Option Seat × List Seat
  | [] => (none, [])
  | s :: rest =>
    if p s then (some (f s), f s :: rest)
    else
      let r := updateFirst p f rest
      (r.1, s :: r.2)

/-- The `{ eventId, seatNumber }` part of every per-seat filter. -/
def keyFilter (eid sn : String) (s : Seat) : Bool :=
  s.eventId == eid && s.seatNumber == sn

/-- Filter of the acquire path (source lines 84–91): the seat is `available`,
or `locked` with `lockExpiresAt ≤ now` (a stale lock).  A `null`
`lockExpiresAt` does not satisfy the `$lte` comparison. -/
def acquireFilter (eid sn : String) (now : Int) (s : Seat) : Bool :=
  keyFilter eid sn s &&
    (s.status == .available ||
      (s.status == .locked &&
        match s.lockExpiresAt with
        | none => false
        | some e => decide (e ≤ now)))

/-- `$set` of the acquire path (source lines 92–94). -/
def acquireUpdate (ownerId : String) (expiresAt : Int) (s : Seat) : Seat :=
  { s with status := .locked, lockOwner := some ownerId,
           lockExpiresAt := some expiresAt, bookingId := none }

inductive LockResult
  | ok (lockedSeats : List Seat)
  | conflict (seatNumber : String)
  | badRequest
deriving DecidableEq, Repr

/-- The per-seat loop of `POST /events/:eventId/lock` (source lines 82–102).
`orig` is the collection as of transaction start; a failing seat aborts the
transaction, so the result reverts to `orig`. -/
def lockLoop (eid ownerId : String) (now expiresAt : Int) (orig : List Seat) :
    List String → List Seat → List Seat → LockResult × List Seat
  | [], db, acc => (.ok acc.reverse, db)
  | sn :: rest, db, acc =>
    match updateFirst (acquireFilter eid sn now) (acquireUpdate ownerId expiresAt) db with
    | (none, _) => (.conflict sn, orig)
    | (some s, db') => lockLoop eid ownerId now expiresAt orig rest db' (s :: acc)

/-- `POST /events/:eventId/lock` (source lines 69–114): validate, then run the
per-seat conditional updates in one transaction. -/
def lockSeats (eid : String) (seatNumbers : List String) (ownerId : String)
    (ttlSeconds : Int) (now : Int) (db : List Seat) : LockResult × List Seat :=
  if seatNumbers.isEmpty || ownerId == "" then (.badRequest, db)
  else lockLoop eid ownerId now (now + ttlSeconds * 1000) db seatNumbers db []

/-- Filter of the confirm path (source lines 130–136): `locked`, owned by the
caller, with `lockExpiresAt` strictly in the future (`$gt: now`). -/
def confirmFilter (eid sn ownerId : String) (now : Int) (s : Seat) : Bool :=
  keyFilter eid sn s && s.status == .locked && s.lockOwner == some ownerId &&
    (match s.lockExpiresAt with
     | none => false
     | some e => decide (now < e))

/-- Read-only validation loop of the confirm path (source lines 128–144):
find each seat by the confirm filter, failing with the first seat that has no
matching record. -/
def findSeats (eid ownerId : String) (now : Int) (db : List Seat) :
    List String → Except String (List Seat)
  | [] => .ok []
  | sn :: rest =>
    match db.find? (confirmFilter eid sn ownerId now) with
    | none => .error sn
    | some s => (findSeats eid ownerId now db rest).map (s :: ·)

/-- `$set` of the confirm path (source line 152). -/
def bookUpdate (bid : Nat) (s : Seat) : Seat :=
  { s with status := .booked, bookingId := some bid,
           lockOwner := none, lockExpiresAt := none }

/-- Second loop of the confirm path (source lines 149–155): one keyed
`updateOne` per seat number. -/
def bookAll (eid : String) (bid : Nat) (seatNumbers : List String)
    (db : List Seat) : List Seat :=
  seatNumbers.foldl (fun l sn => (updateFirst (keyFilter eid sn) (bookUpdate bid) l).2) db

inductive ConfirmResult
  | ok (booking : Booking)
  | conflict (seatNumber : String)
  | badRequest
deriving DecidableEq, Repr

/-- `POST /events/:eventId/confirm` (source lines 116–169): validate every
seat, then create the Booking and transition all seats, atomically. -/
def confirmSeats (eid : String) (seatNumbers : List String) (ownerId : String)
    (now : Int) (st : DBState) : ConfirmResult × DBState :=
  if seatNumbers.isEmpty || ownerId == "" then (.badRequest, st)
  else
    match findSeats eid ownerId now st.seats seatNumbers with
    | .error sn => (.conflict sn, st)
    | .ok _ =>
      let booking : Booking :=
        { id := st.nextBookingId, eventId := eid, ownerId := ownerId,
          seats := seatNumbers, createdAt := now }
      (.ok booking,
        { seats := bookAll eid st.nextBookingId seatNumbers st.seats,
          bookings := st.bookings ++ [booking],
          nextBookingId := st.nextBookingId + 1 })

/-- `$set` shared by the cancel path (source line 194) and the sweep
(source line 228). -/
def releaseUpdate (s : Seat) : Seat :=
  { s with status := .available, lockOwner := none, lockExpiresAt := none }

inductive CancelErr
  | notFound (seatNumber : String)
  | conflict (seatNumber : String)
deriving DecidableEq, Repr

/-- Per-seat loop of `POST /events/:eventId/cancel` (source lines 181–200):
missing seat → 404; booked seat → 409; locked by the caller → release;
anything else → 409. -/
def cancelLoop (eid ownerId : String) :
    List String → List Seat → Except CancelErr (List Seat)
  | [], db => .ok db
  | sn :: rest, db =>
    match db.find? (keyFilter eid sn) with
    | none => .error (.notFound sn)
    | some s =>
      if s.status == .booked then .error (.conflict sn)
      else if s.status == .locked && s.lockOwner == some ownerId then
        cancelLoop eid ownerId rest (updateFirst (keyFilter eid sn) releaseUpdate db).2
      else .error (.conflict sn)

inductive CancelResult
  | ok (cancelled : List String)
  | notFound (seatNumber : String)
  | conflict (seatNumber : String)
  | badRequest
deriving DecidableEq, Repr

/-- `POST /events/:eventId/cancel` (source lines 171–212): validation, then
the transactional loop; any error aborts the transaction, reverting to the
original collection. -/
def cancelSeats (eid : String) (seatNumbers : List String) (ownerId : String)
    (db : List Seat) : CancelResult × List Seat :=
  if seatNumbers.isEmpty || ownerId == "" then (.badRequest, db)
  else
    match cancelLoop eid ownerId seatNumbers db with
    | .error (.notFound sn) => (.notFound sn, db)
    | .error (.conflict sn) => (.conflict sn, db)
    | .ok db' => (.ok seatNumbers, db')

/-- Filter of the sweep (source line 227): `locked` with
`lockExpiresAt ≤ now`. -/
def sweepFilter (now : Int) (s : Seat) : Bool :=
  s.status == .locked &&
    (match s.lockExpiresAt with
     | none => false
     | some e => decide (e ≤ now))

/-- `cleanupExpiredLocks` (source lines 223–236): one bulk conditional
update releasing every stale lock, returning `modifiedCount`. -/
def cleanupExpiredLocks (now : Int) (db : List Seat) : Nat × List Seat :=
  (db.countP (sweepFilter now),
   db.map (fun s => if sweepFilter now s then releaseUpdate s else s))

/-- Seat documents inserted by `POST /events` (source lines 50–52): every
field but the key takes its schema default. -/
def createSeats (eid : String) (seatNumbers : List String) : List Seat :=
  seatNumbers.map (fun sn =>
    { eventId := eid, seatNumber := sn, status := .available,
      lockOwner := none, lockExpiresAt := none, bookingId := none })

/-! ### Derived notions used by the statements -/

/-- The composite key `(eventId, seatNumber)`. -/
def seatKey (s : Seat) : String × String := (s.eventId, s.seatNumber)

/-- The schema's unique compound index (source line 20): no two seat records
share an `(eventId, seatNumber)` key. -/
def keyUnique (l : List Seat) : Prop :=
  l.Pairwise (fun s t => seatKey s ≠ seatKey t)

instance (l : List Seat) : Decidable (keyUnique l) :=
  List.instDecidablePairwise l

/-- No record of `l` satisfies the acquire filter for `(eid, sn)` at `now`:
the seat is unavailable to an acquire. -/
def noAcquireMatch (eid sn : String) (now : Int) (l : List Seat) : Prop :=
  ∀ s ∈ l, acquireFilter eid sn now s = false

instance (eid sn : String) (now : Int) (l : List Seat) :
    Decidable (noAcquireMatch eid sn now l) :=
  List.decidableBAll _ l

/-- The seat carries a lock that has not yet expired at `now`. -/
def lockExpFuture (now : Int) (s : Seat) : Bool :=
  match s.lockExpiresAt with
  | none => false
  | some e => decide (now < e)

/-- Field values a seat holds right after a successful confirm. -/
def bookedFields (bid : Nat) (s : Seat) : Prop :=
  s.status = .booked ∧ s.bookingId = some bid ∧
    s.lockOwner = none ∧ s.lockExpiresAt = none

/-- The per-status field invariant of the data model. -/
def seatInv (s : Seat) : Bool :=
  match s.status with
  | .available => s.lockOwner == none && s.lockExpiresAt == none && s.bookingId == none
  | .locked => !(s.lockOwner == none) && !(s.lockExpiresAt == none) && s.bookingId == none
  | .booked => !(s.bookingId == none) && s.lockOwner == none && s.lockExpiresAt == none

/-- Positional preservation of booked seats: every record that was `booked`
in `l` is untouched at its position in `l'`. -/
def bookedPreserved (l l' : List Seat) : Prop :=
  List.Forall₂ (fun s t => s.status = .booked → t = s) l l'

/-! ### Toolkit: `updateFirst` -/

theorem updateFirst_of_none (p : Seat → Bool) (f : Seat → Seat) (l : List Seat)
    (h : l.find? p = none) : updateFirst p f l = (none, l) := by
  induction l with
  | nil => rfl
  | cons a l ih =>
    rw [List.find?_eq_none] at h
    have hpa : p a = false := by
      simpa using h a (List.mem_cons_self a l)
    have hl : l.find? p = none := by
      rw [List.find?_eq_none]
      exact fun x hx => h x (List.mem_cons_of_mem a hx)
    simp [updateFirst, hpa, ih hl]

theorem updateFirst_decomp (p : Seat → Bool) (f : Seat → Seat) (l : List Seat)
    (s : Seat) (h : l.find? p = some s) :
    ∃ l₁ l₂, l = l₁ ++ s :: l₂ ∧ (∀ x ∈ l₁, p x = false) ∧ p s = true ∧
      (updateFirst p f l).1 = some (f s) ∧
      (updateFirst p f l).2 = l₁ ++ f s :: l₂ := by
  induction l with
  | nil => simp at h
  | cons a l ih =>
    by_cases hp : p a = true
    · rw [List.find?_cons_of_pos _ hp] at h
      injection h with h
      subst h
      exact ⟨[], l, by simp, by simp, hp,
        by simp [updateFirst, hp], by simp [updateFirst, hp]⟩
    · have hp' : p a = false := by simpa using hp
      rw [List.find?_cons_of_neg _ (by simp [hp'])] at h
      obtain ⟨l₁, l₂, hl, h₁, hps, hfst, hsnd⟩ := ih h
      refine ⟨a :: l₁, l₂, by simp [hl], ?_, hps,
        by simp [updateFirst, hp', hfst], by simp [updateFirst, hp', hsnd]⟩
      intro x hx
      rcases List.mem_cons.mp hx with hx | hx
      · subst hx; exact hp'
      · exact h₁ x hx

theorem updateFirst_fst (p : Seat → Bool) (f : Seat → Seat) (l : List Seat) :
    (updateFirst p f l).1 = (l.find? p).map f := by
  cases h : l.find? p with
  | none => simp [updateFirst_of_none p f l h]
  | some s =>
    obtain ⟨_, _, _, _, _, hfst, _⟩ := updateFirst_decomp p f l s h
    simp [hfst]

theorem find?_cons_false (q : Seat → Bool) (x : Seat) (m : List Seat)
    (hx : q x = false) : List.find? q (x :: m) = List.find? q m :=
  List.find?_cons_of_neg m (by simp [hx])

/-- Non-interference: an update whose filter `p` and effect `f` both avoid
the predicate `q` leaves `find? q` unchanged. -/
theorem find?_updateFirst (p q : Seat → Bool) (f : Seat → Seat)
    (hpq : ∀ x, p x = true → q x = false ∧ q (f x) = false) (l : List Seat) :
    ((updateFirst p f l).2).find? q = l.find? q := by
  induction l with
  | nil => rfl
  | cons a l ih =>
    by_cases hp : p a = true
    · obtain ⟨hqa, hqfa⟩ := hpq a hp
      have h2 : (updateFirst p f (a :: l)).2 = f a :: l := by
        simp [updateFirst, hp]
      rw [h2, find?_cons_false q (f a) l hqfa, find?_cons_false q a l hqa]
    · have hp' : p a = false := by simpa using hp
      have h2 : (updateFirst p f (a :: l)).2 = a :: (updateFirst p f l).2 := by
        simp [updateFirst, hp']
      rw [h2]
      by_cases hq : q a = true
      · rw [List.find?_cons_of_pos _ hq, List.find?_cons_of_pos _ hq]
      · have hq' : q a = false := by simpa using hq
        rw [find?_cons_false q a _ hq', find?_cons_false q a l hq', ih]

theorem updateFirst_pres_mem (p : Seat → Bool) (f : Seat → Seat)
    (P : Seat → Prop) (l : List Seat)
    (hl : ∀ x ∈ l, P x) (hf : ∀ x, p x = true → P (f x)) :
    ∀ t ∈ (updateFirst p f l).2, P t := by
  induction l with
  | nil => simp [updateFirst]
  | cons a l ih =>
    by_cases hp : p a = true
    · have h2 : (updateFirst p f (a :: l)).2 = f a :: l := by
        simp [updateFirst, hp]
      rw [h2]
      intro t ht
      rcases List.mem_cons.mp ht with ht | ht
      · subst ht; exact hf a hp
      · exact hl t (List.mem_cons_of_mem a ht)
    · have hp' : p a = false := by simpa using hp
      have h2 : (updateFirst p f (a :: l)).2 = a :: (updateFirst p f l).2 := by
        simp [updateFirst, hp']
      rw [h2]
      intro t ht
      rcases List.mem_cons.mp ht with ht | ht
      · rw [ht]; exact hl a (List.mem_cons_self a l)
      · exact ih (fun x hx => hl x (List.mem_cons_of_mem a hx)) t ht

/-- An update whose effect always establishes `P` preserves "every
`Q`-record satisfies `P`". -/
theorem updateFirst_impl_pres (p : Seat → Bool) (f : Seat → Seat)
    (P Q : Seat → Prop) (l : List Seat)
    (hf : ∀ x, P (f x)) (hl : ∀ t ∈ l, Q t → P t) :
    ∀ t ∈ (updateFirst p f l).2, Q t → P t := by
  induction l with
  | nil => simp [updateFirst]
  | cons a l ih =>
    by_cases hp : p a = true
    · have h2 : (updateFirst p f (a :: l)).2 = f a :: l := by
        simp [updateFirst, hp]
      rw [h2]
      intro t ht
      rcases List.mem_cons.mp ht with ht | ht
      · subst ht; exact fun _ => hf a
      · exact hl t (List.mem_cons_of_mem a ht)
    · have hp' : p a = false := by simpa using hp
      have h2 : (updateFirst p f (a :: l)).2 = a :: (updateFirst p f l).2 := by
        simp [updateFirst, hp']
      rw [h2]
      intro t ht
      rcases List.mem_cons.mp ht with ht | ht
      · rw [ht]; exact hl a (List.mem_cons_self a l)
      · exact ih (fun x hx => hl x (List.mem_cons_of_mem a hx)) t ht

/-- An update whose effect preserves `Q` and always establishes `P`
preserves existence of a record satisfying `Q` and `P`. -/
theorem updateFirst_exists_pres (p : Seat → Bool) (f : Seat → Seat)
    (P Q : Seat → Prop) (l : List Seat)
    (hq : ∀ x, Q x → Q (f x)) (hf : ∀ x, P (f x))
    (h : ∃ t ∈ l, Q t ∧ P t) :
    ∃ t ∈ (updateFirst p f l).2, Q t ∧ P t := by
  induction l with
  | nil => simp at h
  | cons a l ih =>
    by_cases hp : p a = true
    · have h2 : (updateFirst p f (a :: l)).2 = f a :: l := by
        simp [updateFirst, hp]
      rw [h2]
      obtain ⟨t, ht, hQ, hP⟩ := h
      rcases List.mem_cons.mp ht with ht | ht
      · subst ht
        exact ⟨f t, List.mem_cons_self _ _, hq t hQ, hf t⟩
      · exact ⟨t, List.mem_cons_of_mem _ ht, hQ, hP⟩
    · have hp' : p a = false := by simpa using hp
      have h2 : (updateFirst p f (a :: l)).2 = a :: (updateFirst p f l).2 := by
        simp [updateFirst, hp']
      rw [h2]
      obtain ⟨t, ht, hQ, hP⟩ := h
      rcases List.mem_cons.mp ht with ht | ht
      · subst ht
        exact ⟨t, List.mem_cons_self _ _, hQ, hP⟩
      · obtain ⟨u, hu, hQu, hPu⟩ := ih ⟨t, ht, hQ, hP⟩
        exact ⟨u, List.mem_cons_of_mem _ hu, hQu, hPu⟩

/-- Membership in the updated collection: each record is an old record or
the image of the matched old record. -/
theorem updateFirst_mem (p : Seat → Bool) (f : Seat → Seat) (l : List Seat) :
    ∀ t ∈ (updateFirst p f l).2, t ∈ l ∨ ∃ y ∈ l, p y = true ∧ t = f y := by
  induction l with
  | nil => simp [updateFirst]
  | cons a l ih =>
    by_cases hp : p a = true
    · have h2 : (updateFirst p f (a :: l)).2 = f a :: l := by
        simp [updateFirst, hp]
      rw [h2]
      intro t ht
      rcases List.mem_cons.mp ht with ht | ht
      · exact Or.inr ⟨a, List.mem_cons_self a l, hp, ht⟩
      · exact Or.inl (List.mem_cons_of_mem a ht)
    · have hp' : p a = false := by simpa using hp
      have h2 : (updateFirst p f (a :: l)).2 = a :: (updateFirst p f l).2 := by
        simp [updateFirst, hp']
      rw [h2]
      intro t ht
      rcases List.mem_cons.mp ht with ht | ht
      · exact Or.inl (ht ▸ List.mem_cons_self a l)
      · rcases ih t ht with h | ⟨y, hy, hpy, hty⟩
        · exact Or.inl (List.mem_cons_of_mem a h)
        · exact Or.inr ⟨y, List.mem_cons_of_mem a hy, hpy, hty⟩

/-! ### Toolkit: key uniqueness -/

theorem keyFilter_iff (eid sn : String) (s : Seat) :
    keyFilter eid sn s = true ↔ s.eventId = eid ∧ s.seatNumber = sn := by
  simp [keyFilter]

theorem keyFilter_key (eid sn : String) (s : Seat)
    (h : keyFilter eid sn s = true) : seatKey s = (eid, sn) := by
  obtain ⟨h1, h2⟩ := (keyFilter_iff eid sn s).mp h
  simp [seatKey, h1, h2]

theorem keyUnique_eq_of_mem (l : List Seat) (hu : keyUnique l) (s t : Seat)
    (hs : s ∈ l) (ht : t ∈ l) (hk : seatKey s = seatKey t) : s = t := by
  induction l with
  | nil => simp at hs
  | cons a l ih =>
    rw [keyUnique, List.pairwise_cons] at hu
    rcases List.mem_cons.mp hs with hs1 | hs1 <;>
      rcases List.mem_cons.mp ht with ht1 | ht1
    · rw [hs1, ht1]
    · exact absurd (hs1 ▸ hk) (hu.1 t ht1)
    · exact absurd (ht1 ▸ hk).symm (hu.1 s hs1)
    · exact ih hu.2 hs1 ht1

theorem keyUnique_updateFirst (p : Seat → Bool) (f : Seat → Seat)
    (hf : ∀ x, seatKey (f x) = seatKey x) (l : List Seat) (hu : keyUnique l) :
    keyUnique (updateFirst p f l).2 := by
  induction l with
  | nil => simpa [updateFirst] using hu
  | cons a l ih =>
    rw [keyUnique, List.pairwise_cons] at hu
    by_cases hp : p a = true
    · have h2 : (updateFirst p f (a :: l)).2 = f a :: l := by
        simp [updateFirst, hp]
      rw [h2, keyUnique, List.pairwise_cons]
      exact ⟨fun x hx => by rw [hf a]; exact hu.1 x hx, hu.2⟩
    · have hp' : p a = false := by simpa using hp
      have h2 : (updateFirst p f (a :: l)).2 = a :: (updateFirst p f l).2 := by
        simp [updateFirst, hp']
      rw [h2, keyUnique, List.pairwise_cons]
      refine ⟨?_, ih hu.2⟩
      intro x hx
      rcases updateFirst_mem p f l x hx with h | ⟨y, hy, _, hxy⟩
      · exact hu.1 x h
      · rw [hxy, hf y]
        exact hu.1 y hy

/-- If every record satisfying `q` equals `s`, then `find? q` returns `s`
whenever `s` is a matching member. -/
theorem find?_eq_some_of_unique (q : Seat → Bool) (l : List Seat) (s : Seat)
    (hs : s ∈ l) (hq : q s = true) (huniq : ∀ t ∈ l, q t = true → t = s) :
    l.find? q = some s := by
  induction l with
  | nil => simp at hs
  | cons a l ih =>
    by_cases hqa : q a = true
    · rw [List.find?_cons_of_pos _ hqa,
        huniq a (List.mem_cons_self a l) hqa]
    · have hqa' : q a = false := by simpa using hqa
      rw [find?_cons_false q a l hqa']
      have hs' : s ∈ l := by
        rcases List.mem_cons.mp hs with h | h
        · rw [h] at hq; rw [hq] at hqa'; cases hqa'
        · exact h
      exact ih hs' (fun t ht hqt => huniq t (List.mem_cons_of_mem a ht) hqt)

/-- After updating the unique `(eid, sn)` record through a filter implying
the key, every `(eid, sn)` record of the result is the updated record. -/
theorem updateFirst_key_all (p : Seat → Bool) (f : Seat → Seat)
    (eid sn : String) (l : List Seat) (s : Seat)
    (hp : ∀ x, p x = true → keyFilter eid sn x = true)
    (hu : keyUnique l) (h : l.find? p = some s) :
    ∀ t ∈ (updateFirst p f l).2, keyFilter eid sn t = true → t = f s := by
  obtain ⟨l₁, l₂, hl, _, hps, _, hsnd⟩ := updateFirst_decomp p f l s h
  rw [hsnd]
  rw [hl, keyUnique, List.pairwise_append] at hu
  intro t ht hkt
  rcases List.mem_append.mp ht with ht1 | ht1
  · exact absurd ((keyFilter_key eid sn t hkt).trans
      (keyFilter_key eid sn s (hp s hps)).symm)
      (hu.2.2 t ht1 s (List.mem_cons_self s l₂))
  · rcases List.mem_cons.mp ht1 with ht2 | ht2
    · exact ht2
    · have hcons := List.pairwise_cons.mp hu.2.1
      exact absurd ((keyFilter_key eid sn s (hp s hps)).trans
        (keyFilter_key eid sn t hkt).symm) (hcons.1 t ht2)

/-! ### Toolkit: booked-seat preservation -/

theorem bookedPreserved_refl (l : List Seat) : bookedPreserved l l := by
  induction l with
  | nil => exact List.Forall₂.nil
  | cons a l ih => exact List.Forall₂.cons (fun _ => rfl) ih

theorem bookedPreserved_append (l₁ l₂ m₁ m₂ : List Seat)
    (h1 : bookedPreserved l₁ m₁) (h2 : bookedPreserved l₂ m₂) :
    bookedPreserved (l₁ ++ l₂) (m₁ ++ m₂) := by
  induction h1 with
  | nil => exact h2
  | cons hab htail ih => exact List.Forall₂.cons hab ih

theorem bookedPreserved_trans (l m n : List Seat)
    (h1 : bookedPreserved l m) (h2 : bookedPreserved m n) :
    bookedPreserved l n := by
  induction h1 generalizing n with
  | nil => cases h2; exact List.Forall₂.nil
  | @cons a b l₁ m₁ hab htail ih =>
    cases h2 with
    | @cons _ c _ n₁ hbc h2' =>
      refine List.Forall₂.cons ?_ (ih _ h2')
      intro hbk
      have hba : b = a := hab hbk
      have hcb : c = b := hbc (by rw [hba]; exact hbk)
      rw [hcb, hba]

/-- The matched record is not booked, so the update preserves every booked
record in place. -/
theorem updateFirst_bookedPreserved_find (p : Seat → Bool) (f : Seat → Seat)
    (l : List Seat) (s : Seat) (h : l.find? p = some s)
    (hs : s.status ≠ .booked) :
    bookedPreserved l (updateFirst p f l).2 := by
  obtain ⟨l₁, l₂, hl, _, _, _, hsnd⟩ := updateFirst_decomp p f l s h
  rw [hsnd, hl]
  exact bookedPreserved_append l₁ (s :: l₂) l₁ (f s :: l₂)
    (bookedPreserved_refl l₁)
    (List.Forall₂.cons (fun hbk => absurd hbk hs) (bookedPreserved_refl l₂))

/-- A filter that never matches a booked record yields a booked-preserving
update. -/
theorem updateFirst_bookedPreserved (p : Seat → Bool) (f : Seat → Seat)
    (l : List Seat) (hp : ∀ x, p x = true → x.status ≠ .booked) :
    bookedPreserved l (updateFirst p f l).2 := by
  cases h : l.find? p with
  | none => rw [updateFirst_of_none p f l h]; exact bookedPreserved_refl l
  | some s =>
    exact updateFirst_bookedPreserved_find p f l s h (hp s (List.find?_some h))

theorem map_bookedPreserved (g : Seat → Seat) (l : List Seat)
    (hg : ∀ x, x.status = .booked → g x = x) :
    bookedPreserved l (l.map g) := by
  induction l with
  | nil => exact List.Forall₂.nil
  | cons a l ih => exact List.Forall₂.cons (hg a) ih

/-! ### Facts about the acquire filter -/

theorem acquireFilter_key (eid sn : String) (now : Int) (s : Seat)
    (h : acquireFilter eid sn now s = true) : keyFilter eid sn s = true := by
  simp only [acquireFilter, Bool.and_eq_true] at h
  exact h.1

theorem acquireFilter_false_of_sn (eid sn : String) (now : Int) (s : Seat)
    (h : s.seatNumber ≠ sn) : acquireFilter eid sn now s = false := by
  simp [acquireFilter, keyFilter, h]

theorem acquireFilter_not_booked (eid sn : String) (now : Int) (s : Seat)
    (h : acquireFilter eid sn now s = true) : s.status ≠ .booked := by
  intro hb
  simp [acquireFilter, hb] at h

theorem acquireFilter_of_validLock (eid sn : String) (now : Int) (s : Seat)
    (hst : s.status = .locked) (e : Int) (he : s.lockExpiresAt = some e)
    (hlt : now < e) : acquireFilter eid sn now s = false := by
  have hn : ¬ (e ≤ now) := not_le.mpr hlt
  simp [acquireFilter, hst, he, hn]

theorem acquireFilter_of_booked (eid sn : String) (now : Int) (s : Seat)
    (hb : s.status = .booked) : acquireFilter eid sn now s = false := by
  simp [acquireFilter, hb]

theorem noAcquireMatch_iff_find? (eid sn : String) (now : Int) (l : List Seat) :
    noAcquireMatch eid sn now l ↔ l.find? (acquireFilter eid sn now) = none := by
  simp [noAcquireMatch, List.find?_eq_none]

theorem acquireUpdate_key (ownerId : String) (expiresAt : Int) (s : Seat) :
    seatKey (acquireUpdate ownerId expiresAt s) = seatKey s := rfl

/-! ### Step lemmas for the acquire loop -/

theorem lockLoop_nil (eid oid : String) (now exp : Int)
    (orig db acc : List Seat) :
    lockLoop eid oid now exp orig [] db acc = (.ok acc.reverse, db) := rfl

theorem lockLoop_cons_none (eid oid : String) (now exp : Int)
    (orig db acc : List Seat) (sn : String) (rest : List String)
    (h : db.find? (acquireFilter eid sn now) = none) :
    lockLoop eid oid now exp orig (sn :: rest) db acc = (.conflict sn, orig) := by
  have hu := updateFirst_of_none (acquireFilter eid sn now)
    (acquireUpdate oid exp) db h
  simp [lockLoop, hu]

theorem lockLoop_cons_some (eid oid : String) (now exp : Int)
    (orig db acc : List Seat) (sn : String) (rest : List String) (s : Seat)
    (h : db.find? (acquireFilter eid sn now) = some s) :
    lockLoop eid oid now exp orig (sn :: rest) db acc =
      lockLoop eid oid now exp orig rest
        (updateFirst (acquireFilter eid sn now) (acquireUpdate oid exp) db).2
        (acquireUpdate oid exp s :: acc) := by
  have hfst : (updateFirst (acquireFilter eid sn now)
      (acquireUpdate oid exp) db).1 = some (acquireUpdate oid exp s) := by
    rw [updateFirst_fst, h]
    rfl
  have hpair : updateFirst (acquireFilter eid sn now) (acquireUpdate oid exp) db =
      (some (acquireUpdate oid exp s),
        (updateFirst (acquireFilter eid sn now) (acquireUpdate oid exp) db).2) := by
    rw [← hfst]
  rw [lockLoop, hpair]

theorem lockSeats_run (eid : String) (sns : List String) (oid : String)
    (ttl now : Int) (db : List Seat) (hne : sns ≠ []) (hoid : oid ≠ "") :
    lockSeats eid sns oid ttl now db =
      lockLoop eid oid now (now + ttl * 1000) db sns db [] := by
  simp [lockSeats, hne, hoid]

/-! ### Conflict behaviour of the acquire loop -/

/-- If some requested seat never matches the acquire filter in the working
collection, the loop aborts with a conflict and reverts to `orig`. -/
theorem lockLoop_conflict_inv (eid oid : String) (now exp : Int)
    (orig : List Seat) (sn : String) (sns : List String) :
    ∀ (db acc : List Seat), sn ∈ sns → noAcquireMatch eid sn now db →
      ∃ sn', lockLoop eid oid now exp orig sns db acc = (.conflict sn', orig) := by
  induction sns with
  | nil => intro db acc h; simp at h
  | cons sn₀ rest ih =>
    intro db acc hmem hnm
    cases hf : db.find? (acquireFilter eid sn₀ now) with
    | none =>
      exact ⟨sn₀, lockLoop_cons_none eid oid now exp orig db acc sn₀ rest hf⟩
    | some s =>
      have hne : sn₀ ≠ sn := by
        intro he
        rw [he] at hf
        rw [noAcquireMatch_iff_find? eid sn now db] at hnm
        rw [hnm] at hf
        cases hf
      have hmem2 : sn ∈ rest := by
        rcases List.mem_cons.mp hmem with h | h
        · exact absurd h.symm hne
        · exact h
      have hnm' : noAcquireMatch eid sn now
          (updateFirst (acquireFilter eid sn₀ now) (acquireUpdate oid exp) db).2 := by
        intro t ht
        refine updateFirst_pres_mem _ _
          (fun t => acquireFilter eid sn now t = false) db hnm ?_ t ht
        intro x hx
        have hkey : x.seatNumber = sn₀ :=
          ((keyFilter_iff eid sn₀ x).mp (acquireFilter_key eid sn₀ now x hx)).2
        exact acquireFilter_false_of_sn eid sn now _ (by simpa [acquireUpdate] using hne ∘ (hkey ▸ ·))
      obtain ⟨sn', hres⟩ := ih _ (acquireUpdate oid exp s :: acc) hmem2 hnm'
      exact ⟨sn', by rw [lockLoop_cons_some eid oid now exp orig db acc sn₀ rest s hf, hres]⟩

/-- With distinct seat numbers, the conflict names a seat that is genuinely
unavailable in the collection as of transaction start. -/
theorem lockLoop_conflict_first (eid oid : String) (now exp : Int)
    (db : List Seat) (sns : List String) :
    ∀ (db' acc : List Seat), sns.Nodup →
      (∀ sn ∈ sns, db'.find? (acquireFilter eid sn now) =
        db.find? (acquireFilter eid sn now)) →
      (∃ sn ∈ sns, noAcquireMatch eid sn now db) →
      ∃ sn' ∈ sns, noAcquireMatch eid sn' now db ∧
        lockLoop eid oid now exp db sns db' acc = (.conflict sn', db) := by
  induction sns with
  | nil => intro db' acc _ _ hex; simp at hex
  | cons sn₀ rest ih =>
    intro db' acc hnd hinv hex
    by_cases hm : noAcquireMatch eid sn₀ now db
    · have hfind : db'.find? (acquireFilter eid sn₀ now) = none := by
        rw [hinv sn₀ (List.mem_cons_self sn₀ rest)]
        exact (noAcquireMatch_iff_find? eid sn₀ now db).mp hm
      exact ⟨sn₀, List.mem_cons_self sn₀ rest, hm,
        lockLoop_cons_none eid oid now exp db db' acc sn₀ rest hfind⟩
    · obtain ⟨sn, hsn, hsnm⟩ := hex
      have hsn' : sn ∈ rest := by
        rcases List.mem_cons.mp hsn with h | h
        · rw [h] at hsnm; exact absurd hsnm hm
        · exact h
      cases hf : db.find? (acquireFilter eid sn₀ now) with
      | none =>
        exact absurd ((noAcquireMatch_iff_find? eid sn₀ now db).mpr hf) hm
      | some s =>
        have hf' : db'.find? (acquireFilter eid sn₀ now) = some s := by
          rw [hinv sn₀ (List.mem_cons_self sn₀ rest), hf]
        have hnd' := (List.nodup_cons.mp hnd).2
        have hnotmem := (List.nodup_cons.mp hnd).1
        have hinv' : ∀ sn₁ ∈ rest,
            ((updateFirst (acquireFilter eid sn₀ now) (acquireUpdate oid exp) db').2).find?
              (acquireFilter eid sn₁ now) = db.find? (acquireFilter eid sn₁ now) := by
          intro sn₁ h₁
          have hne₀ : sn₀ ≠ sn₁ := fun he => hnotmem (he ▸ h₁)
          rw [find?_updateFirst _ _ _ ?_ db', hinv sn₁ (List.mem_cons_of_mem sn₀ h₁)]
          intro x hx
          have hkey : x.seatNumber = sn₀ :=
            ((keyFilter_iff eid sn₀ x).mp (acquireFilter_key eid sn₀ now x hx)).2
          constructor
          · exact acquireFilter_false_of_sn eid sn₁ now x (hkey ▸ hne₀)
          · exact acquireFilter_false_of_sn eid sn₁ now _ (by simpa [acquireUpdate] using hkey ▸ hne₀)
        obtain ⟨sn', hmem', hnm', hres⟩ :=
          ih _ (acquireUpdate oid exp s :: acc) hnd' hinv' ⟨sn, hsn', hsnm⟩
        exact ⟨sn', List.mem_cons_of_mem sn₀ hmem', hnm',
          by rw [lockLoop_cons_some eid oid now exp db db' acc sn₀ rest s hf', hres]⟩

theorem keyFilter_of_key (eid sn : String) (s : Seat)
    (h : seatKey s = (eid, sn)) : keyFilter eid sn s = true := by
  have h1 : s.eventId = eid := congrArg Prod.fst h
  have h2 : s.seatNumber = sn := congrArg Prod.snd h
  simp [keyFilter, h1, h2]

theorem acquireFilter_false_of_key_false (eid sn : String) (now : Int)
    (s : Seat) (h : keyFilter eid sn s = false) :
    acquireFilter eid sn now s = false := by
  simp [acquireFilter, h]

/-- A seat whose unique record carries a valid (unexpired) lock or is booked
never matches the acquire filter. -/
theorem noAcquireMatch_of_unique_seat (eid sn : String) (now : Int)
    (db : List Seat) (s : Seat)
    (hs : s ∈ db) (hkey : seatKey s = (eid, sn)) (hu : keyUnique db)
    (hbad : (s.status = .locked ∧ lockExpFuture now s = true) ∨
      s.status = .booked) :
    noAcquireMatch eid sn now db := by
  intro t ht
  by_cases hkt : keyFilter eid sn t = true
  · have heq : t = s := keyUnique_eq_of_mem db hu t s ht hs
      ((keyFilter_key eid sn t hkt).trans hkey.symm)
    rw [heq]
    rcases hbad with ⟨hst, hexp⟩ | hb
    · cases he : s.lockExpiresAt with
      | none => simp [lockExpFuture, he] at hexp
      | some e =>
        have hlt : now < e := by simpa [lockExpFuture, he] using hexp
        exact acquireFilter_of_validLock eid sn now s hst e he hlt
    · exact acquireFilter_of_booked eid sn now s hb
  · exact acquireFilter_false_of_key_false eid sn now t (by simpa using hkt)

/-- C1: an acquire batch containing a seat that is validly locked by another
owner or booked returns Conflict naming a seat that is genuinely
unavailable, and the whole collection — seats locked earlier in the batch
included — reverts to its prior state. -/
theorem lockSeats_batch_conflict_rollback
    (eid oid other : String) (seatNumbers : List String) (ttl now : Int)
    (db : List Seat) (s : Seat) (sn : String)
    (hoid : oid ≠ "")
    (hnd : seatNumbers.Nodup)
    (hmem : sn ∈ seatNumbers)
    (hs : s ∈ db) (hkey : seatKey s = (eid, sn))
    (hu : keyUnique db)
    (hfail : (s.status = .locked ∧ s.lockOwner = some other ∧ other ≠ oid ∧
        lockExpFuture now s = true) ∨ s.status = .booked) :
    ∃ sn' ∈ seatNumbers, noAcquireMatch eid sn' now db ∧
      lockSeats eid seatNumbers oid ttl now db = (.conflict sn', db) := by
  have hnm : noAcquireMatch eid sn now db := by
    refine noAcquireMatch_of_unique_seat eid sn now db s hs hkey hu ?_
    rcases hfail with ⟨hst, _, _, hexp⟩ | hb
    · exact Or.inl ⟨hst, hexp⟩
    · exact Or.inr hb
  rw [lockSeats_run eid seatNumbers oid ttl now db
    (List.ne_nil_of_mem hmem) hoid]
  exact lockLoop_conflict_first eid oid now (now + ttl * 1000) db seatNumbers
    db [] hnd (fun _ _ => rfl) ⟨sn, hmem, hnm⟩

theorem lockSeats_batch_conflict_rollback_witness :
    ∃ sn' ∈ ["A", "B"],
      noAcquireMatch "e" sn' 0
        [⟨"e", "A", .available, none, none, none⟩,
         ⟨"e", "B", .locked, some "u1", some 100, none⟩] ∧
      lockSeats "e" ["A", "B"] "u2" 60 0
        [⟨"e", "A", .available, none, none, none⟩,
         ⟨"e", "B", .locked, some "u1", some 100, none⟩] =
      (.conflict sn',
        [⟨"e", "A", .available, none, none, none⟩,
         ⟨"e", "B", .locked, some "u1", some 100, none⟩]) :=
  lockSeats_batch_conflict_rollback "e" "u2" "u1" ["A", "B"] 60 0
    [⟨"e", "A", .available, none, none, none⟩,
     ⟨"e", "B", .locked, some "u1", some 100, none⟩]
    ⟨"e", "B", .locked, some "u1", some 100, none⟩ "B"
    (by decide) (by decide) (by decide) (by decide) (by decide) (by decide)
    (Or.inl ⟨rfl, rfl, by decide, rfl⟩)

/-- C9: acquire is not reentrant — a seat the requesting owner already holds
under a valid lock makes the whole acquire return Conflict with the
collection unchanged, because the acquire filter checks only status and
expiry, never the owner. -/
theorem lockSeats_not_reentrant
    (eid oid : String) (seatNumbers : List String) (ttl now : Int)
    (db : List Seat) (s : Seat) (sn : String)
    (hoid : oid ≠ "")
    (hmem : sn ∈ seatNumbers)
    (hs : s ∈ db) (hkey : seatKey s = (eid, sn))
    (hu : keyUnique db)
    (hst : s.status = .locked) (hown : s.lockOwner = some oid)
    (hexp : lockExpFuture now s = true) :
    ∃ sn', lockSeats eid seatNumbers oid ttl now db = (.conflict sn', db) := by
  have hnm : noAcquireMatch eid sn now db :=
    noAcquireMatch_of_unique_seat eid sn now db s hs hkey hu
      (Or.inl ⟨hst, hexp⟩)
  rw [lockSeats_run eid seatNumbers oid ttl now db
    (List.ne_nil_of_mem hmem) hoid]
  exact lockLoop_conflict_inv eid oid now (now + ttl * 1000) db sn
    seatNumbers db [] hmem hnm

theorem lockSeats_not_reentrant_witness :
    ∃ sn', lockSeats "e" ["A"] "u1" 60 50
      [⟨"e", "A", .locked, some "u1", some 100, none⟩] =
      (.conflict sn', [⟨"e", "A", .locked, some "u1", some 100, none⟩]) :=
  lockSeats_not_reentrant "e" "u1" ["A"] 60 50
    [⟨"e", "A", .locked, some "u1", some 100, none⟩]
    ⟨"e", "A", .locked, some "u1", some 100, none⟩ "A"
    (by decide) (by decide) (by decide) (by decide) (by decide) rfl rfl rfl

/-! ### Facts about the confirm filter -/

theorem confirmFilter_key (eid sn oid : String) (now : Int) (s : Seat)
    (h : confirmFilter eid sn oid now s = true) : keyFilter eid sn s = true := by
  simp only [confirmFilter, Bool.and_eq_true] at h
  exact h.1.1.1

theorem confirmFilter_false_of_expired (eid sn oid : String) (now : Int)
    (s : Seat) (e : Int) (he : s.lockExpiresAt = some e) (hle : e ≤ now) :
    confirmFilter eid sn oid now s = false := by
  have hn : ¬ (now < e) := not_lt.mpr hle
  simp [confirmFilter, he, hn]

theorem findSeats_cons_none (eid oid : String) (now : Int) (db : List Seat)
    (sn : String) (rest : List String)
    (h : db.find? (confirmFilter eid sn oid now) = none) :
    findSeats eid oid now db (sn :: rest) = .error sn := by
  simp [findSeats, h]

theorem confirmSeats_conflict (eid : String) (sns : List String) (oid : String)
    (now : Int) (st : DBState) (sn : String)
    (hne : sns ≠ []) (hoid : oid ≠ "")
    (hfs : findSeats eid oid now st.seats sns = .error sn) :
    confirmSeats eid sns oid now st = (.conflict sn, st) := by
  simp [confirmSeats, hne, hoid, hfs]

/-- C3: a seat whose lock has already expired (`lockExpiresAt ≤ now`) is
acquired by a new caller exactly as if available — the new owner and a fresh
expiry are stamped — while a confirm by the original lock owner at the same
instant returns Conflict and changes nothing, because confirm demands an
expiry strictly after `now`. -/
theorem stale_lock_reacquire_confirm_reject
    (eid sn oid1 oid2 : String) (ttl now : Int) (st : DBState)
    (s : Seat) (e : Int)
    (hs : s ∈ st.seats) (hkey : seatKey s = (eid, sn)) (hu : keyUnique st.seats)
    (hst : s.status = .locked) (hown : s.lockOwner = some oid1)
    (he : s.lockExpiresAt = some e) (hle : e ≤ now)
    (hoid1 : oid1 ≠ "") (hoid2 : oid2 ≠ "") (hdiff : oid2 ≠ oid1) :
    (lockSeats eid [sn] oid2 ttl now st.seats).1 =
        .ok [acquireUpdate oid2 (now + ttl * 1000) s] ∧
      (∀ t ∈ (lockSeats eid [sn] oid2 ttl now st.seats).2,
        keyFilter eid sn t = true → t = acquireUpdate oid2 (now + ttl * 1000) s) ∧
      confirmSeats eid [sn] oid1 now st = (.conflict sn, st) := by
  have hmatch : acquireFilter eid sn now s = true := by
    simp [acquireFilter, keyFilter_of_key eid sn s hkey, hst, he, hle]
  have huniq : ∀ t ∈ st.seats, acquireFilter eid sn now t = true → t = s := by
    intro t ht hft
    exact keyUnique_eq_of_mem st.seats hu t s ht hs
      ((keyFilter_key eid sn t (acquireFilter_key eid sn now t hft)).trans hkey.symm)
  have hfind : st.seats.find? (acquireFilter eid sn now) = some s :=
    find?_eq_some_of_unique _ st.seats s hs hmatch huniq
  have hrun := lockSeats_run eid [sn] oid2 ttl now st.seats (by simp) hoid2
  have hstep := lockLoop_cons_some eid oid2 now (now + ttl * 1000) st.seats
    st.seats [] sn [] s hfind
  refine ⟨?_, ?_, ?_⟩
  · rw [hrun, hstep, lockLoop_nil]
    simp
  · rw [hrun, hstep, lockLoop_nil]
    exact updateFirst_key_all _ _ eid sn st.seats s
      (fun x hx => acquireFilter_key eid sn now x hx) hu hfind
  · have hnone : st.seats.find? (confirmFilter eid sn oid1 now) = none := by
      rw [List.find?_eq_none]
      intro t ht hft
      have heq : t = s := keyUnique_eq_of_mem st.seats hu t s ht hs
        ((keyFilter_key eid sn t (confirmFilter_key eid sn oid1 now t hft)).trans hkey.symm)
      rw [heq, confirmFilter_false_of_expired eid sn oid1 now s e he hle] at hft
      exact Bool.noConfusion hft
    exact confirmSeats_conflict eid [sn] oid1 now st sn (by simp) hoid1
      (findSeats_cons_none eid oid1 now st.seats sn [] hnone)

theorem stale_lock_reacquire_confirm_reject_witness :
    (lockSeats "e" ["A"] "u2" 60 10
        [⟨"e", "A", .locked, some "u1", some 10, none⟩]).1 =
        .ok [acquireUpdate "u2" (10 + 60 * 1000)
          ⟨"e", "A", .locked, some "u1", some 10, none⟩] ∧
      (∀ t ∈ (lockSeats "e" ["A"] "u2" 60 10
          [⟨"e", "A", .locked, some "u1", some 10, none⟩]).2,
        keyFilter "e" "A" t = true →
          t = acquireUpdate "u2" (10 + 60 * 1000)
            ⟨"e", "A", .locked, some "u1", some 10, none⟩) ∧
      confirmSeats "e" ["A"] "u1" 10
        ⟨[⟨"e", "A", .locked, some "u1", some 10, none⟩], [], 5⟩ =
      (.conflict "A",
        ⟨[⟨"e", "A", .locked, some "u1", some 10, none⟩], [], 5⟩) :=
  stale_lock_reacquire_confirm_reject "e" "A" "u1" "u2" 60 10
    ⟨[⟨"e", "A", .locked, some "u1", some 10, none⟩], [], 5⟩
    ⟨"e", "A", .locked, some "u1", some 10, none⟩ 10
    (by decide) (by decide) (by decide) rfl rfl rfl (by decide)
    (by decide) (by decide) (by decide)

/-! ### The confirm path: validation loop and booking loop -/

theorem find?_isSome_of_exists (p : Seat → Bool) (l : List Seat)
    (h : ∃ t ∈ l, p t = true) : ∃ s, l.find? p = some s := by
  cases hf : l.find? p with
  | none =>
    rw [List.find?_eq_none] at hf
    obtain ⟨t, ht, hp⟩ := h
    exact absurd hp (hf t ht)
  | some s => exact ⟨s, rfl⟩

theorem findSeats_cons_some (eid oid : String) (now : Int) (db : List Seat)
    (sn : String) (rest : List String) (s : Seat)
    (h : db.find? (confirmFilter eid sn oid now) = some s) :
    findSeats eid oid now db (sn :: rest) =
      (findSeats eid oid now db rest).map (s :: ·) := by
  simp [findSeats, h]

/-- The validation loop fails exactly at a seat with no record passing the
confirm filter, naming the first such seat. -/
theorem findSeats_error_of_noMatch (eid oid : String) (now : Int)
    (db : List Seat) (sns : List String)
    (hex : ∃ sn ∈ sns, db.find? (confirmFilter eid sn oid now) = none) :
    ∃ sn' ∈ sns, db.find? (confirmFilter eid sn' oid now) = none ∧
      findSeats eid oid now db sns = .error sn' := by
  induction sns with
  | nil => simp at hex
  | cons sn₀ rest ih =>
    by_cases h0 : db.find? (confirmFilter eid sn₀ oid now) = none
    · exact ⟨sn₀, List.mem_cons_self sn₀ rest, h0,
        findSeats_cons_none eid oid now db sn₀ rest h0⟩
    · cases hf : db.find? (confirmFilter eid sn₀ oid now) with
      | none => exact absurd hf h0
      | some s =>
        have hex' : ∃ sn ∈ rest, db.find? (confirmFilter eid sn oid now) = none := by
          obtain ⟨sn, hsn, hn⟩ := hex
          rcases List.mem_cons.mp hsn with h | h
          · rw [h] at hn; exact absurd hn h0
          · exact ⟨sn, h, hn⟩
        obtain ⟨sn', hmem, hn', hres⟩ := ih hex'
        refine ⟨sn', List.mem_cons_of_mem sn₀ hmem, hn', ?_⟩
        rw [findSeats_cons_some eid oid now db sn₀ rest s hf, hres]
        rfl

theorem findSeats_ok_of_allMatch (eid oid : String) (now : Int)
    (db : List Seat) (sns : List String)
    (hall : ∀ sn ∈ sns, ∃ t ∈ db, confirmFilter eid sn oid now t = true) :
    ∃ res, findSeats eid oid now db sns = .ok res := by
  induction sns with
  | nil => exact ⟨[], rfl⟩
  | cons sn₀ rest ih =>
    obtain ⟨s, hf⟩ := find?_isSome_of_exists _ db
      (hall sn₀ (List.mem_cons_self sn₀ rest))
    obtain ⟨res, hres⟩ := ih (fun sn h => hall sn (List.mem_cons_of_mem sn₀ h))
    refine ⟨s :: res, ?_⟩
    rw [findSeats_cons_some eid oid now db sn₀ rest s hf, hres]
    rfl

theorem confirmSeats_ok_run (eid : String) (sns : List String) (oid : String)
    (now : Int) (st : DBState) (res : List Seat)
    (hne : sns ≠ []) (hoid : oid ≠ "")
    (hfs : findSeats eid oid now st.seats sns = .ok res) :
    confirmSeats eid sns oid now st =
      (.ok ⟨st.nextBookingId, eid, oid, sns, now⟩,
        ⟨bookAll eid st.nextBookingId sns st.seats,
         st.bookings ++ [⟨st.nextBookingId, eid, oid, sns, now⟩],
         st.nextBookingId + 1⟩) := by
  simp [confirmSeats, hne, hoid, hfs]

/-! ### Properties of the booking loop -/

theorem bookUpdate_key (bid : Nat) (s : Seat) :
    seatKey (bookUpdate bid s) = seatKey s := rfl

theorem bookUpdate_fields (bid : Nat) (s : Seat) :
    bookedFields bid (bookUpdate bid s) := ⟨rfl, rfl, rfl, rfl⟩

theorem bookAll_nil (eid : String) (bid : Nat) (l : List Seat) :
    bookAll eid bid [] l = l := rfl

theorem bookAll_cons (eid : String) (bid : Nat) (sn : String)
    (rest : List String) (l : List Seat) :
    bookAll eid bid (sn :: rest) l =
      bookAll eid bid rest (updateFirst (keyFilter eid sn) (bookUpdate bid) l).2 := rfl

theorem bookAll_keyUnique (eid : String) (bid : Nat) (sns : List String) :
    ∀ l, keyUnique l → keyUnique (bookAll eid bid sns l) := by
  induction sns with
  | nil => intro l hu; exact hu
  | cons sn rest ih =>
    intro l hu
    rw [bookAll_cons]
    exact ih _ (keyUnique_updateFirst _ _ (bookUpdate_key bid) l hu)

theorem bookAll_exists_key (eid : String) (bid : Nat) (sns : List String)
    (sn : String) : ∀ l, (∃ t ∈ l, keyFilter eid sn t = true) →
      ∃ t ∈ bookAll eid bid sns l, keyFilter eid sn t = true := by
  induction sns with
  | nil => intro l h; exact h
  | cons sn₀ rest ih =>
    intro l h
    rw [bookAll_cons]
    refine ih _ ?_
    have := updateFirst_exists_pres (keyFilter eid sn₀) (bookUpdate bid)
      (fun _ => True) (fun t => keyFilter eid sn t = true) l
      (fun x hx => hx) (fun _ => trivial)
      (by obtain ⟨t, ht, hk⟩ := h; exact ⟨t, ht, hk, trivial⟩)
    obtain ⟨t, ht, hk, _⟩ := this
    exact ⟨t, ht, hk⟩

theorem bookAll_pres_all (eid : String) (bid : Nat) (sns : List String)
    (sn : String) : ∀ l, (∀ t ∈ l, keyFilter eid sn t = true → bookedFields bid t) →
      ∀ t ∈ bookAll eid bid sns l, keyFilter eid sn t = true → bookedFields bid t := by
  induction sns with
  | nil => intro l h; exact h
  | cons sn₀ rest ih =>
    intro l h
    rw [bookAll_cons]
    exact ih _ (updateFirst_impl_pres (keyFilter eid sn₀) (bookUpdate bid)
      (bookedFields bid) (fun t => keyFilter eid sn t = true) l
      (bookUpdate_fields bid) h)

theorem bookAll_pres_exists (eid : String) (bid : Nat) (sns : List String)
    (sn : String) : ∀ l, (∃ t ∈ l, keyFilter eid sn t = true ∧ bookedFields bid t) →
      ∃ t ∈ bookAll eid bid sns l, keyFilter eid sn t = true ∧ bookedFields bid t := by
  induction sns with
  | nil => intro l h; exact h
  | cons sn₀ rest ih =>
    intro l h
    rw [bookAll_cons]
    exact ih _ (updateFirst_exists_pres (keyFilter eid sn₀) (bookUpdate bid)
      (bookedFields bid) (fun t => keyFilter eid sn t = true) l
      (fun x hx => hx) (bookUpdate_fields bid) h)

/-- After the booking loop, every requested seat's unique record is booked
with the new booking id and cleared lock fields. -/
theorem bookAll_books (eid : String) (bid : Nat) (sns : List String) :
    ∀ l, keyUnique l → (∀ sn ∈ sns, ∃ t ∈ l, keyFilter eid sn t = true) →
      ∀ sn ∈ sns,
        (∃ t ∈ bookAll eid bid sns l, keyFilter eid sn t = true ∧ bookedFields bid t) ∧
        (∀ t ∈ bookAll eid bid sns l, keyFilter eid sn t = true → bookedFields bid t) := by
  induction sns with
  | nil => intro l _ _ sn h; simp at h
  | cons sn₀ rest ih =>
    intro l hu hex sn hsn
    have hf0 : ∃ s, l.find? (keyFilter eid sn₀) = some s :=
      find?_isSome_of_exists _ l (hex sn₀ (List.mem_cons_self sn₀ rest))
    obtain ⟨s, hfind⟩ := hf0
    have hu₂ : keyUnique (updateFirst (keyFilter eid sn₀) (bookUpdate bid) l).2 :=
      keyUnique_updateFirst _ _ (bookUpdate_key bid) l hu
    have hex₂ : ∀ sn₁ ∈ rest,
        ∃ t ∈ (updateFirst (keyFilter eid sn₀) (bookUpdate bid) l).2,
          keyFilter eid sn₁ t = true := by
      intro sn₁ h₁
      have h := updateFirst_exists_pres (keyFilter eid sn₀) (bookUpdate bid)
        (fun _ => True) (fun t => keyFilter eid sn₁ t = true) l
        (fun x hx => hx) (fun _ => trivial)
        (by obtain ⟨t, ht, hk⟩ := hex sn₁ (List.mem_cons_of_mem sn₀ h₁)
            exact ⟨t, ht, hk, trivial⟩)
      obtain ⟨t, ht, hk, _⟩ := h
      exact ⟨t, ht, hk⟩
    rcases List.mem_cons.mp hsn with hsn0 | hsnr
    · subst hsn0
      obtain ⟨l₁, l₂, hl, _, hps, _, hsnd⟩ :=
        updateFirst_decomp (keyFilter eid sn) (bookUpdate bid) l s hfind
      have hmem2 : bookUpdate bid s ∈ (updateFirst (keyFilter eid sn) (bookUpdate bid) l).2 := by
        rw [hsnd]
        exact List.mem_append.mpr (Or.inr (List.mem_cons_self _ l₂))
      have hestab : ∃ t ∈ (updateFirst (keyFilter eid sn) (bookUpdate bid) l).2,
          keyFilter eid sn t = true ∧ bookedFields bid t :=
        ⟨bookUpdate bid s, hmem2, hps, bookUpdate_fields bid s⟩
      have hallstab : ∀ t ∈ (updateFirst (keyFilter eid sn) (bookUpdate bid) l).2,
          keyFilter eid sn t = true → bookedFields bid t := by
        intro t ht hk
        rw [updateFirst_key_all (keyFilter eid sn) (bookUpdate bid) eid sn l s
          (fun _ hx => hx) hu hfind t ht hk]
        exact bookUpdate_fields bid s
      rw [bookAll_cons]
      exact ⟨bookAll_pres_exists eid bid rest sn _ hestab,
        bookAll_pres_all eid bid rest sn _ hallstab⟩
    · rw [bookAll_cons]
      exact ih _ hu₂ hex₂ sn hsnr

/-- C2: confirm is atomic. If every requested seat has a record locked by
the caller with an unexpired lock, one Booking referencing all seat numbers
is appended and every requested seat's record becomes booked with that
Booking's id and cleared lock fields; if some requested seat has no such
record, the result is Conflict naming such a seat, no Booking is created
and no seat changes state. -/
theorem confirmSeats_atomic
    (eid oid : String) (seatNumbers : List String) (now : Int) (st : DBState)
    (hne : seatNumbers ≠ []) (hoid : oid ≠ "") (hu : keyUnique st.seats) :
    ((∀ sn ∈ seatNumbers, ∃ t ∈ st.seats, confirmFilter eid sn oid now t = true) →
      ∃ booking : Booking,
        (confirmSeats eid seatNumbers oid now st).1 = .ok booking ∧
        booking.eventId = eid ∧ booking.ownerId = oid ∧
        booking.seats = seatNumbers ∧
        (confirmSeats eid seatNumbers oid now st).2.bookings =
          st.bookings ++ [booking] ∧
        ∀ sn ∈ seatNumbers,
          (∃ t ∈ (confirmSeats eid seatNumbers oid now st).2.seats,
            keyFilter eid sn t = true ∧ bookedFields booking.id t) ∧
          (∀ t ∈ (confirmSeats eid seatNumbers oid now st).2.seats,
            keyFilter eid sn t = true → bookedFields booking.id t)) ∧
    ((∃ sn ∈ seatNumbers, ∀ t ∈ st.seats, confirmFilter eid sn oid now t = false) →
      ∃ sn' ∈ seatNumbers,
        (∀ t ∈ st.seats, confirmFilter eid sn' oid now t = false) ∧
        confirmSeats eid seatNumbers oid now st = (.conflict sn', st)) := by
  constructor
  · intro hall
    obtain ⟨res, hfs⟩ :=
      findSeats_ok_of_allMatch eid oid now st.seats seatNumbers hall
    have hrun := confirmSeats_ok_run eid seatNumbers oid now st res hne hoid hfs
    refine ⟨⟨st.nextBookingId, eid, oid, seatNumbers, now⟩,
      ?_, rfl, rfl, rfl, ?_, ?_⟩
    · rw [hrun]
    · rw [hrun]
    · intro sn hsn
      have hexk : ∀ sn₁ ∈ seatNumbers, ∃ t ∈ st.seats, keyFilter eid sn₁ t = true := by
        intro sn₁ h₁
        obtain ⟨t, ht, hc⟩ := hall sn₁ h₁
        exact ⟨t, ht, confirmFilter_key eid sn₁ oid now t hc⟩
      have hb := bookAll_books eid st.nextBookingId seatNumbers st.seats hu hexk sn hsn
      rw [hrun]
      exact hb
  · intro hex
    have hex' : ∃ sn ∈ seatNumbers,
        st.seats.find? (confirmFilter eid sn oid now) = none := by
      obtain ⟨sn, hsn, hn⟩ := hex
      refine ⟨sn, hsn, ?_⟩
      rw [List.find?_eq_none]
      intro t ht
      simp [hn t ht]
    obtain ⟨sn', hmem, hn', hres⟩ :=
      findSeats_error_of_noMatch eid oid now st.seats seatNumbers hex'
    refine ⟨sn', hmem, ?_,
      confirmSeats_conflict eid seatNumbers oid now st sn' hne hoid hres⟩
    rw [List.find?_eq_none] at hn'
    intro t ht
    simpa using hn' t ht

theorem confirmSeats_atomic_witness :
    ((∀ sn ∈ ["A", "B"], ∃ t ∈
        [⟨"e", "A", .locked, some "u1", some 100, none⟩,
         ⟨"e", "B", .locked, some "u1", some 100, none⟩],
        confirmFilter "e" sn "u1" 0 t = true) →
      ∃ booking : Booking,
        (confirmSeats "e" ["A", "B"] "u1" 0
          ⟨[⟨"e", "A", .locked, some "u1", some 100, none⟩,
            ⟨"e", "B", .locked, some "u1", some 100, none⟩], [], 7⟩).1 = .ok booking ∧
        booking.eventId = "e" ∧ booking.ownerId = "u1" ∧
        booking.seats = ["A", "B"] ∧
        (confirmSeats "e" ["A", "B"] "u1" 0
          ⟨[⟨"e", "A", .locked, some "u1", some 100, none⟩,
            ⟨"e", "B", .locked, some "u1", some 100, none⟩], [], 7⟩).2.bookings =
          [] ++ [booking] ∧
        ∀ sn ∈ ["A", "B"],
          (∃ t ∈ (confirmSeats "e" ["A", "B"] "u1" 0
              ⟨[⟨"e", "A", .locked, some "u1", some 100, none⟩,
                ⟨"e", "B", .locked, some "u1", some 100, none⟩], [], 7⟩).2.seats,
            keyFilter "e" sn t = true ∧ bookedFields booking.id t) ∧
          (∀ t ∈ (confirmSeats "e" ["A", "B"] "u1" 0
              ⟨[⟨"e", "A", .locked, some "u1", some 100, none⟩,
                ⟨"e", "B", .locked, some "u1", some 100, none⟩], [], 7⟩).2.seats,
            keyFilter "e" sn t = true → bookedFields booking.id t)) ∧
    ((∃ sn ∈ ["A", "B"], ∀ t ∈
        [⟨"e", "A", .locked, some "u1", some 100, none⟩,
         ⟨"e", "B", .locked, some "u1", some 100, none⟩],
        confirmFilter "e" sn "u1" 0 t = false) →
      ∃ sn' ∈ ["A", "B"],
        (∀ t ∈ [⟨"e", "A", .locked, some "u1", some 100, none⟩,
                ⟨"e", "B", .locked, some "u1", some 100, none⟩],
          confirmFilter "e" sn' "u1" 0 t = false) ∧
        confirmSeats "e" ["A", "B"] "u1" 0
          ⟨[⟨"e", "A", .locked, some "u1", some 100, none⟩,
            ⟨"e", "B", .locked, some "u1", some 100, none⟩], [], 7⟩ =
          (.conflict sn',
            ⟨[⟨"e", "A", .locked, some "u1", some 100, none⟩,
              ⟨"e", "B", .locked, some "u1", some 100, none⟩], [], 7⟩)) :=
  confirmSeats_atomic "e" "u1" ["A", "B"] 0
    ⟨[⟨"e", "A", .locked, some "u1", some 100, none⟩,
      ⟨"e", "B", .locked, some "u1", some 100, none⟩], [], 7⟩
    (by decide) (by decide) (by decide)

/-! ### Step lemmas for the cancel loop -/

theorem cancelLoop_nil (eid oid : String) (db : List Seat) :
    cancelLoop eid oid [] db = .ok db := rfl

theorem cancelLoop_cons_missing (eid oid sn : String) (rest : List String)
    (db : List Seat) (h : db.find? (keyFilter eid sn) = none) :
    cancelLoop eid oid (sn :: rest) db = .error (.notFound sn) := by
  simp [cancelLoop, h]

theorem cancelLoop_cons_booked (eid oid sn : String) (rest : List String)
    (db : List Seat) (s : Seat) (h : db.find? (keyFilter eid sn) = some s)
    (hb : s.status = .booked) :
    cancelLoop eid oid (sn :: rest) db = .error (.conflict sn) := by
  simp [cancelLoop, h, hb]

theorem cancelLoop_cons_release (eid oid sn : String) (rest : List String)
    (db : List Seat) (s : Seat) (h : db.find? (keyFilter eid sn) = some s)
    (hl : s.status = .locked) (ho : s.lockOwner = some oid) :
    cancelLoop eid oid (sn :: rest) db =
      cancelLoop eid oid rest (updateFirst (keyFilter eid sn) releaseUpdate db).2 := by
  simp [cancelLoop, h, hl, ho]

theorem cancelLoop_cons_other (eid oid sn : String) (rest : List String)
    (db : List Seat) (s : Seat) (h : db.find? (keyFilter eid sn) = some s)
    (hb : s.status ≠ .booked) (ho : ¬(s.status = .locked ∧ s.lockOwner = some oid)) :
    cancelLoop eid oid (sn :: rest) db = .error (.conflict sn) := by
  by_cases hst : s.status = .locked
  · have hown : s.lockOwner ≠ some oid := fun hc => ho ⟨hst, hc⟩
    simp [cancelLoop, h, hb, hst, hown]
  · simp [cancelLoop, h, hb, hst]

theorem cancelSeats_run (eid : String) (sns : List String) (oid : String)
    (db : List Seat) (hne : sns ≠ []) (hoid : oid ≠ "") :
    cancelSeats eid sns oid db =
      match cancelLoop eid oid sns db with
      | .error (.notFound sn) => (.notFound sn, db)
      | .error (.conflict sn) => (.conflict sn, db)
      | .ok db' => (.ok sns, db') := by
  simp [cancelSeats, hne, hoid]

/-! ### Booked seats survive every operation -/

theorem cancelLoop_bookedPreserved (eid oid : String) (sns : List String) :
    ∀ db db', cancelLoop eid oid sns db = .ok db' → bookedPreserved db db' := by
  induction sns with
  | nil =>
    intro db db' h
    rw [cancelLoop_nil] at h
    injection h with h
    rw [← h]
    exact bookedPreserved_refl db
  | cons sn rest ih =>
    intro db db' h
    cases hf : db.find? (keyFilter eid sn) with
    | none =>
      rw [cancelLoop_cons_missing eid oid sn rest db hf] at h
      exact Except.noConfusion h
    | some s =>
      by_cases hb : s.status = .booked
      · rw [cancelLoop_cons_booked eid oid sn rest db s hf hb] at h
        exact Except.noConfusion h
      · by_cases hlo : s.status = .locked ∧ s.lockOwner = some oid
        · rw [cancelLoop_cons_release eid oid sn rest db s hf hlo.1 hlo.2] at h
          exact bookedPreserved_trans _ _ _
            (updateFirst_bookedPreserved_find _ _ db s hf hb) (ih _ _ h)
        · rw [cancelLoop_cons_other eid oid sn rest db s hf hb hlo] at h
          exact Except.noConfusion h

theorem lockLoop_bookedPreserved (eid oid : String) (now exp : Int)
    (orig : List Seat) (sns : List String) :
    ∀ db acc, bookedPreserved orig db →
      bookedPreserved orig (lockLoop eid oid now exp orig sns db acc).2 := by
  induction sns with
  | nil => intro db acc h; exact h
  | cons sn rest ih =>
    intro db acc h
    cases hf : db.find? (acquireFilter eid sn now) with
    | none =>
      rw [lockLoop_cons_none eid oid now exp orig db acc sn rest hf]
      exact bookedPreserved_refl orig
    | some s =>
      rw [lockLoop_cons_some eid oid now exp orig db acc sn rest s hf]
      refine ih _ _ (bookedPreserved_trans _ _ _ h ?_)
      exact updateFirst_bookedPreserved_find _ _ db s hf
        (acquireFilter_not_booked eid sn now s (List.find?_some hf))

/-- C4: no resurrection — a booked seat is never touched by acquire,
release (cancel) or the sweep: its record survives all three operations
unchanged, the acquire filter never matches a booked seat, and the sweep
filter matches only locked seats. -/
theorem booked_no_resurrection (eid : String) (sns : List String)
    (oid : String) (ttl now : Int) (db : List Seat) :
    bookedPreserved db (lockSeats eid sns oid ttl now db).2 ∧
    bookedPreserved db (cancelSeats eid sns oid db).2 ∧
    bookedPreserved db (cleanupExpiredLocks now db).2 ∧
    (∀ s : Seat, s.status = .booked → ∀ sn, acquireFilter eid sn now s = false) ∧
    (∀ s : Seat, s.status = .booked → sweepFilter now s = false) := by
  refine ⟨?_, ?_, ?_, ?_, ?_⟩
  · by_cases hcond : (sns.isEmpty || (oid == "")) = true
    · simp only [lockSeats, if_pos hcond]
      exact bookedPreserved_refl db
    · simp only [lockSeats, if_neg hcond]
      exact lockLoop_bookedPreserved eid oid now (now + ttl * 1000) db sns db []
        (bookedPreserved_refl db)
  · by_cases hcond : (sns.isEmpty || (oid == "")) = true
    · simp only [cancelSeats, if_pos hcond]
      exact bookedPreserved_refl db
    · simp only [cancelSeats, if_neg hcond]
      cases hl : cancelLoop eid oid sns db with
      | error e =>
        cases e with
        | notFound sn => exact bookedPreserved_refl db
        | conflict sn => exact bookedPreserved_refl db
      | ok db' => exact cancelLoop_bookedPreserved eid oid sns db db' hl
  · exact map_bookedPreserved _ db (fun x hx => by simp [sweepFilter, hx])
  · exact fun s hs sn => acquireFilter_of_booked eid sn now s hs
  · exact fun s hs => by simp [sweepFilter, hs]

/-! ### The per-status field invariant -/

theorem seatInv_acquireUpdate (oid : String) (exp : Int) (s : Seat) :
    seatInv (acquireUpdate oid exp s) = true := by
  simp [seatInv, acquireUpdate]

theorem seatInv_bookUpdate (bid : Nat) (s : Seat) :
    seatInv (bookUpdate bid s) = true := by
  simp [seatInv, bookUpdate]

/-- The release `$set` does not touch `bookingId`, so the invariant after a
release needs the matched seat's `bookingId` to have been null already —
which the invariant guarantees for locked seats. -/
theorem seatInv_releaseUpdate (s : Seat) (h : s.bookingId = none) :
    seatInv (releaseUpdate s) = true := by
  simp [seatInv, releaseUpdate, h]

theorem seatInv_locked_bookingId (s : Seat) (h : seatInv s = true)
    (hst : s.status = .locked) : s.bookingId = none := by
  simp [seatInv, hst] at h
  exact h.2

theorem sweepFilter_locked (now : Int) (s : Seat)
    (h : sweepFilter now s = true) : s.status = .locked := by
  simp only [sweepFilter, Bool.and_eq_true] at h
  simpa using h.1

/-- Variant of `updateFirst_pres_mem` where `P` is known for the image of
the record `find?` returns (the one record actually replaced). -/
theorem updateFirst_pres_mem_find (p : Seat → Bool) (f : Seat → Seat)
    (P : Seat → Prop) (l : List Seat) (s : Seat) (h : l.find? p = some s)
    (hl : ∀ x ∈ l, P x) (hfs : P (f s)) :
    ∀ t ∈ (updateFirst p f l).2, P t := by
  obtain ⟨l₁, l₂, hldec, _, _, _, hsnd⟩ := updateFirst_decomp p f l s h
  rw [hsnd]
  intro t ht
  rcases List.mem_append.mp ht with h1 | h1
  · exact hl t (by rw [hldec]; exact List.mem_append.mpr (Or.inl h1))
  · rcases List.mem_cons.mp h1 with h2 | h2
    · rw [h2]; exact hfs
    · exact hl t (by
        rw [hldec]
        exact List.mem_append.mpr (Or.inr (List.mem_cons_of_mem s h2)))

theorem lockLoop_inv (eid oid : String) (now exp : Int) (orig : List Seat)
    (sns : List String) (horig : ∀ s ∈ orig, seatInv s = true) :
    ∀ db acc, (∀ s ∈ db, seatInv s = true) →
      ∀ s ∈ (lockLoop eid oid now exp orig sns db acc).2, seatInv s = true := by
  induction sns with
  | nil => intro db acc hdb; exact hdb
  | cons sn rest ih =>
    intro db acc hdb
    cases hf : db.find? (acquireFilter eid sn now) with
    | none =>
      rw [lockLoop_cons_none eid oid now exp orig db acc sn rest hf]
      exact horig
    | some s =>
      rw [lockLoop_cons_some eid oid now exp orig db acc sn rest s hf]
      exact ih _ _ (updateFirst_pres_mem _ _ (fun t => seatInv t = true) db hdb
        (fun x _ => seatInv_acquireUpdate oid exp x))

theorem cancelLoop_inv (eid oid : String) (sns : List String) :
    ∀ db db', (∀ s ∈ db, seatInv s = true) →
      cancelLoop eid oid sns db = .ok db' → ∀ s ∈ db', seatInv s = true := by
  induction sns with
  | nil =>
    intro db db' hdb h
    rw [cancelLoop_nil] at h
    injection h with h
    rw [← h]
    exact hdb
  | cons sn rest ih =>
    intro db db' hdb h
    cases hf : db.find? (keyFilter eid sn) with
    | none =>
      rw [cancelLoop_cons_missing eid oid sn rest db hf] at h
      exact Except.noConfusion h
    | some s =>
      by_cases hb : s.status = .booked
      · rw [cancelLoop_cons_booked eid oid sn rest db s hf hb] at h
        exact Except.noConfusion h
      · by_cases hlo : s.status = .locked ∧ s.lockOwner = some oid
        · rw [cancelLoop_cons_release eid oid sn rest db s hf hlo.1 hlo.2] at h
          refine ih _ _ (updateFirst_pres_mem_find _ _ (fun t => seatInv t = true)
            db s hf hdb ?_) h
          exact seatInv_releaseUpdate s (seatInv_locked_bookingId s
            (hdb s (List.mem_of_find?_eq_some hf)) hlo.1)
        · rw [cancelLoop_cons_other eid oid sn rest db s hf hb hlo] at h
          exact Except.noConfusion h

theorem bookAll_inv (eid : String) (bid : Nat) (sns : List String) :
    ∀ l, (∀ s ∈ l, seatInv s = true) →
      ∀ s ∈ bookAll eid bid sns l, seatInv s = true := by
  induction sns with
  | nil => intro l h; exact h
  | cons sn rest ih =>
    intro l h
    rw [bookAll_cons]
    exact ih _ (updateFirst_pres_mem _ _ (fun t => seatInv t = true) l h
      (fun x _ => seatInv_bookUpdate bid x))

/-- C5: every operation — seat creation, acquire, confirm, release (cancel)
and the sweep — preserves the per-status field invariant on every seat
record. -/
theorem seat_invariant_preserved (eid : String) (sns snsCreate : List String)
    (oid : String) (ttl now : Int) (st : DBState)
    (hinv : ∀ s ∈ st.seats, seatInv s = true) :
    (∀ s ∈ createSeats eid snsCreate, seatInv s = true) ∧
    (∀ s ∈ (lockSeats eid sns oid ttl now st.seats).2, seatInv s = true) ∧
    (∀ s ∈ (confirmSeats eid sns oid now st).2.seats, seatInv s = true) ∧
    (∀ s ∈ (cancelSeats eid sns oid st.seats).2, seatInv s = true) ∧
    (∀ s ∈ (cleanupExpiredLocks now st.seats).2, seatInv s = true) := by
  refine ⟨?_, ?_, ?_, ?_, ?_⟩
  · intro s hs
    simp only [createSeats, List.mem_map] at hs
    obtain ⟨sn, _, hsn⟩ := hs
    rw [← hsn]
    rfl
  · by_cases hcond : (sns.isEmpty || (oid == "")) = true
    · simp only [lockSeats, if_pos hcond]
      exact hinv
    · simp only [lockSeats, if_neg hcond]
      exact lockLoop_inv eid oid now (now + ttl * 1000) st.seats sns hinv
        st.seats [] hinv
  · by_cases hcond : (sns.isEmpty || (oid == "")) = true
    · simp only [confirmSeats, if_pos hcond]
      exact hinv
    · simp only [confirmSeats, if_neg hcond]
      cases hfs : findSeats eid oid now st.seats sns with
      | error sn => exact hinv
      | ok res => exact bookAll_inv eid st.nextBookingId sns st.seats hinv
  · by_cases hcond : (sns.isEmpty || (oid == "")) = true
    · simp only [cancelSeats, if_pos hcond]
      exact hinv
    · simp only [cancelSeats, if_neg hcond]
      cases hl : cancelLoop eid oid sns st.seats with
      | error e =>
        cases e with
        | notFound sn => exact hinv
        | conflict sn => exact hinv
      | ok db' => exact cancelLoop_inv eid oid sns st.seats db' hinv hl
  · intro s hs
    simp only [cleanupExpiredLocks] at hs
    obtain ⟨x, hx, hgx⟩ := List.mem_map.mp hs
    by_cases hsw : sweepFilter now x = true
    · rw [← hgx, if_pos hsw]
      exact seatInv_releaseUpdate x (seatInv_locked_bookingId x (hinv x hx)
        (sweepFilter_locked now x hsw))
    · rw [← hgx, if_neg hsw]
      exact hinv x hx

theorem seat_invariant_preserved_witness :
    (∀ s ∈ createSeats "e" ["X"], seatInv s = true) ∧
    (∀ s ∈ (lockSeats "e" ["B"] "u2" 60 10
      [⟨"e", "B", .locked, some "u1", some 5, none⟩]).2, seatInv s = true) ∧
    (∀ s ∈ (confirmSeats "e" ["B"] "u2" 10
      ⟨[⟨"e", "B", .locked, some "u1", some 5, none⟩], [], 0⟩).2.seats,
      seatInv s = true) ∧
    (∀ s ∈ (cancelSeats "e" ["B"] "u2"
      [⟨"e", "B", .locked, some "u1", some 5, none⟩]).2, seatInv s = true) ∧
    (∀ s ∈ (cleanupExpiredLocks 10
      [⟨"e", "B", .locked, some "u1", some 5, none⟩]).2, seatInv s = true) :=
  seat_invariant_preserved "e" ["B"] ["X"] "u2" 60 10
    ⟨[⟨"e", "B", .locked, some "u1", some 5, none⟩], [], 0⟩ (by decide)

/-! ### Sweep idempotence -/

/-- C7: the sweep counts and releases exactly the seats that are locked with
`lockExpiresAt ≤ now` (leaving every other record in place), and running it
a second time at the same `now` matches nothing: it reports zero and leaves
the state unchanged. -/
theorem cleanupExpiredLocks_idempotent (now : Int) (db : List Seat) :
    (cleanupExpiredLocks now db).1 = db.countP (sweepFilter now) ∧
    List.Forall₂ (fun s t =>
      (sweepFilter now s = true → t = releaseUpdate s) ∧
      (sweepFilter now s = false → t = s)) db (cleanupExpiredLocks now db).2 ∧
    cleanupExpiredLocks now (cleanupExpiredLocks now db).2 =
      (0, (cleanupExpiredLocks now db).2) := by
  refine ⟨rfl, ?_, ?_⟩
  · show List.Forall₂ _ db (db.map _)
    induction db with
    | nil => exact List.Forall₂.nil
    | cons a l ih =>
      exact List.Forall₂.cons ⟨fun h => by simp [h], fun h => by simp [h]⟩ ih
  · have hall : ∀ t ∈ (cleanupExpiredLocks now db).2, sweepFilter now t = false := by
      intro t ht
      simp only [cleanupExpiredLocks] at ht
      obtain ⟨x, hx, hgx⟩ := List.mem_map.mp ht
      by_cases hsw : sweepFilter now x = true
      · rw [← hgx, if_pos hsw]
        simp [sweepFilter, releaseUpdate]
      · rw [← hgx, if_neg hsw]
        simpa using hsw
    have h1 : ((cleanupExpiredLocks now db).2).countP (sweepFilter now) = 0 := by
      rw [List.countP_eq_zero]
      intro a ha
      simp [hall a ha]
    have h2 : ((cleanupExpiredLocks now db).2).map
        (fun s => if sweepFilter now s then releaseUpdate s else s) =
        (cleanupExpiredLocks now db).2 := by
      have hcongr : ∀ a ∈ (cleanupExpiredLocks now db).2,
          (if sweepFilter now a then releaseUpdate a else a) = id a := by
        intro a ha
        rw [if_neg (by simp [hall a ha])]
        rfl
      rw [List.map_congr_left hcongr, List.map_id]
    show ((cleanupExpiredLocks now db).2.countP (sweepFilter now),
      ((cleanupExpiredLocks now db).2).map _) = _
    rw [h1, h2]

/-- Fields every seat carries right after a release. -/
def releasedFields (t : Seat) : Prop :=
  t.status = .available ∧ t.lockOwner = none ∧ t.lockExpiresAt = none

/-- C10: release by the rightful owner succeeds even on an expired lock the
sweep has not yet reclaimed — the cancel path checks only status and owner,
never `lockExpiresAt`. -/
theorem cancelSeats_expired_lock_release
    (eid sn oid : String) (now : Int) (db : List Seat) (s : Seat) (e : Int)
    (hs : s ∈ db) (hkey : seatKey s = (eid, sn)) (hu : keyUnique db)
    (hst : s.status = .locked) (hown : s.lockOwner = some oid)
    (he : s.lockExpiresAt = some e) (hpast : e < now)
    (hoid : oid ≠ "") :
    (cancelSeats eid [sn] oid db).1 = .ok [sn] ∧
    ∀ t ∈ (cancelSeats eid [sn] oid db).2,
      keyFilter eid sn t = true → releasedFields t := by
  have hfind : db.find? (keyFilter eid sn) = some s :=
    find?_eq_some_of_unique _ db s hs (keyFilter_of_key eid sn s hkey)
      (fun t ht hk => keyUnique_eq_of_mem db hu t s ht hs
        ((keyFilter_key eid sn t hk).trans hkey.symm))
  have hloop : cancelLoop eid oid [sn] db =
      .ok (updateFirst (keyFilter eid sn) releaseUpdate db).2 := by
    rw [cancelLoop_cons_release eid oid sn [] db s hfind hst hown, cancelLoop_nil]
  have hrun := cancelSeats_run eid [sn] oid db (by simp) hoid
  constructor
  · rw [hrun, hloop]
  · rw [hrun, hloop]
    intro t ht hk
    rw [updateFirst_key_all (keyFilter eid sn) releaseUpdate eid sn db s
      (fun _ hx => hx) hu hfind t ht hk]
    exact ⟨rfl, rfl, rfl⟩

theorem cancelSeats_expired_lock_release_witness :
    (cancelSeats "e" ["A"] "u1"
      [⟨"e", "A", .locked, some "u1", some 5, none⟩]).1 = .ok ["A"] ∧
    ∀ t ∈ (cancelSeats "e" ["A"] "u1"
      [⟨"e", "A", .locked, some "u1", some 5, none⟩]).2,
      keyFilter "e" "A" t = true → releasedFields t :=
  cancelSeats_expired_lock_release "e" "A" "u1" 10
    [⟨"e", "A", .locked, some "u1", some 5, none⟩]
    ⟨"e", "A", .locked, some "u1", some 5, none⟩ 5
    (by decide) (by decide) (by decide) rfl rfl rfl (by decide) (by decide)

/-! ### Characterizing the cancel loop -/

theorem keyFilter_false_of_sn (eid sn : String) (x : Seat)
    (h : x.seatNumber ≠ sn) : keyFilter eid sn x = false := by
  simp [keyFilter, h]

theorem releaseUpdate_key (s : Seat) :
    seatKey (releaseUpdate s) = seatKey s := rfl

theorem releasedFields_releaseUpdate (s : Seat) :
    releasedFields (releaseUpdate s) := ⟨rfl, rfl, rfl⟩

/-- A cancel batch containing a seat that is missing, booked, or not locked
by the caller fails with the matching error, evaluated against the
collection as of transaction start. -/
theorem cancelLoop_fails (eid oid : String) (db : List Seat)
    (sns : List String) :
    ∀ db', sns.Nodup →
      (∀ sn ∈ sns, db'.find? (keyFilter eid sn) = db.find? (keyFilter eid sn)) →
      (∃ sn ∈ sns, db.find? (keyFilter eid sn) = none ∨
        ∃ s, db.find? (keyFilter eid sn) = some s ∧
          (s.status = .booked ∨ ¬(s.status = .locked ∧ s.lockOwner = some oid))) →
      ∃ sn' ∈ sns,
        (db.find? (keyFilter eid sn') = none ∧
          cancelLoop eid oid sns db' = .error (.notFound sn')) ∨
        ((∃ s, db.find? (keyFilter eid sn') = some s ∧
          (s.status = .booked ∨ ¬(s.status = .locked ∧ s.lockOwner = some oid))) ∧
          cancelLoop eid oid sns db' = .error (.conflict sn')) := by
  induction sns with
  | nil => intro db' _ _ hex; simp at hex
  | cons sn₀ rest ih =>
    intro db' hnd hinv hex
    have hinv₀ := hinv sn₀ (List.mem_cons_self sn₀ rest)
    cases hf : db.find? (keyFilter eid sn₀) with
    | none =>
      refine ⟨sn₀, List.mem_cons_self sn₀ rest, Or.inl ⟨hf, ?_⟩⟩
      exact cancelLoop_cons_missing eid oid sn₀ rest db' (by rw [hinv₀, hf])
    | some s =>
      have hf' : db'.find? (keyFilter eid sn₀) = some s := by rw [hinv₀, hf]
      by_cases hbk : s.status = .booked
      · exact ⟨sn₀, List.mem_cons_self sn₀ rest, Or.inr ⟨⟨s, hf, Or.inl hbk⟩,
          cancelLoop_cons_booked eid oid sn₀ rest db' s hf' hbk⟩⟩
      · by_cases hlo : s.status = .locked ∧ s.lockOwner = some oid
        · have hnotmem := (List.nodup_cons.mp hnd).1
          have hex' : ∃ sn ∈ rest, db.find? (keyFilter eid sn) = none ∨
              ∃ s₁, db.find? (keyFilter eid sn) = some s₁ ∧
                (s₁.status = .booked ∨
                  ¬(s₁.status = .locked ∧ s₁.lockOwner = some oid)) := by
            obtain ⟨sn, hsn, hfail⟩ := hex
            rcases List.mem_cons.mp hsn with h | h
            · subst h
              rcases hfail with hmiss | ⟨s₁, hfind₁, hbad₁⟩
              · rw [hmiss] at hf; exact Option.noConfusion hf
              · rw [hf] at hfind₁
                injection hfind₁ with hfind₁
                rw [← hfind₁] at hbad₁
                rcases hbad₁ with h₁ | h₁
                · exact absurd h₁ hbk
                · exact absurd hlo h₁
            · exact ⟨sn, h, hfail⟩
          have hinv' : ∀ sn ∈ rest,
              ((updateFirst (keyFilter eid sn₀) releaseUpdate db').2).find?
                (keyFilter eid sn) = db.find? (keyFilter eid sn) := by
            intro sn h₁
            have hne₀ : sn₀ ≠ sn := fun he => hnotmem (he ▸ h₁)
            rw [find?_updateFirst _ _ _ ?_ db', hinv sn (List.mem_cons_of_mem sn₀ h₁)]
            intro x hx
            have hkey : x.seatNumber = sn₀ := ((keyFilter_iff eid sn₀ x).mp hx).2
            exact ⟨keyFilter_false_of_sn eid sn x (hkey ▸ hne₀),
              keyFilter_false_of_sn eid sn _ (by simpa [releaseUpdate] using hkey ▸ hne₀)⟩
          obtain ⟨sn', hmem', hres⟩ := ih _ (List.nodup_cons.mp hnd).2 hinv' hex'
          rw [← cancelLoop_cons_release eid oid sn₀ rest db' s hf' hlo.1 hlo.2] at hres
          exact ⟨sn', List.mem_cons_of_mem sn₀ hmem', hres⟩
        · exact ⟨sn₀, List.mem_cons_self sn₀ rest, Or.inr ⟨⟨s, hf, Or.inr hlo⟩,
            cancelLoop_cons_other eid oid sn₀ rest db' s hf' hbk hlo⟩⟩

/-- Once every record matching `Q` is released, further cancel steps keep it
so: the release update always produces released fields. -/
theorem cancelLoop_released_pres (eid oid : String) (Q : Seat → Prop)
    (sns : List String) :
    ∀ db db', cancelLoop eid oid sns db = .ok db' →
      (∀ t ∈ db, Q t → releasedFields t) →
      ∀ t ∈ db', Q t → releasedFields t := by
  induction sns with
  | nil =>
    intro db db' h hq
    rw [cancelLoop_nil] at h
    injection h with h
    rw [← h]
    exact hq
  | cons sn rest ih =>
    intro db db' h hq
    cases hf : db.find? (keyFilter eid sn) with
    | none =>
      rw [cancelLoop_cons_missing eid oid sn rest db hf] at h
      exact Except.noConfusion h
    | some s =>
      by_cases hb : s.status = .booked
      · rw [cancelLoop_cons_booked eid oid sn rest db s hf hb] at h
        exact Except.noConfusion h
      · by_cases hlo : s.status = .locked ∧ s.lockOwner = some oid
        · rw [cancelLoop_cons_release eid oid sn rest db s hf hlo.1 hlo.2] at h
          exact ih _ _ h (updateFirst_impl_pres _ _ releasedFields Q db
            (fun x => releasedFields_releaseUpdate x) hq)
        · rw [cancelLoop_cons_other eid oid sn rest db s hf hb hlo] at h
          exact Except.noConfusion h

/-- When every requested seat is locked by the caller, the cancel loop
succeeds and leaves every requested seat's record released. -/
theorem cancelLoop_ok_spec (eid oid : String) (db : List Seat)
    (sns : List String) :
    ∀ db', sns.Nodup → keyUnique db' →
      (∀ sn ∈ sns, db'.find? (keyFilter eid sn) = db.find? (keyFilter eid sn)) →
      (∀ sn ∈ sns, ∃ s, db.find? (keyFilter eid sn) = some s ∧
        s.status = .locked ∧ s.lockOwner = some oid) →
      ∃ db'', cancelLoop eid oid sns db' = .ok db'' ∧
        ∀ sn ∈ sns, ∀ t ∈ db'', keyFilter eid sn t = true → releasedFields t := by
  induction sns with
  | nil =>
    intro db' _ _ _ _
    exact ⟨db', cancelLoop_nil eid oid db', by simp⟩
  | cons sn₀ rest ih =>
    intro db' hnd hu' hinv hgood
    obtain ⟨s, hf, hst, hown⟩ := hgood sn₀ (List.mem_cons_self sn₀ rest)
    have hf' : db'.find? (keyFilter eid sn₀) = some s := by
      rw [hinv sn₀ (List.mem_cons_self sn₀ rest), hf]
    have hnotmem := (List.nodup_cons.mp hnd).1
    have hu₂ : keyUnique (updateFirst (keyFilter eid sn₀) releaseUpdate db').2 :=
      keyUnique_updateFirst _ _ releaseUpdate_key db' hu'
    have hinv₂ : ∀ sn ∈ rest,
        ((updateFirst (keyFilter eid sn₀) releaseUpdate db').2).find?
          (keyFilter eid sn) = db.find? (keyFilter eid sn) := by
      intro sn h₁
      have hne₀ : sn₀ ≠ sn := fun he => hnotmem (he ▸ h₁)
      rw [find?_updateFirst _ _ _ ?_ db', hinv sn (List.mem_cons_of_mem sn₀ h₁)]
      intro x hx
      have hkey : x.seatNumber = sn₀ := ((keyFilter_iff eid sn₀ x).mp hx).2
      exact ⟨keyFilter_false_of_sn eid sn x (hkey ▸ hne₀),
        keyFilter_false_of_sn eid sn _ (by simpa [releaseUpdate] using hkey ▸ hne₀)⟩
    obtain ⟨db'', hloop, hrel⟩ := ih _ (List.nodup_cons.mp hnd).2 hu₂ hinv₂
      (fun sn h₁ => hgood sn (List.mem_cons_of_mem sn₀ h₁))
    refine ⟨db'', ?_, ?_⟩
    · rw [cancelLoop_cons_release eid oid sn₀ rest db' s hf' hst hown]
      exact hloop
    · intro sn hsn t ht hk
      rcases List.mem_cons.mp hsn with h₁ | h₁
      · subst h₁
        have hestab : ∀ u ∈ (updateFirst (keyFilter eid sn) releaseUpdate db').2,
            keyFilter eid sn u = true → releasedFields u := by
          intro u hu₃ hku
          rw [updateFirst_key_all (keyFilter eid sn) releaseUpdate eid sn db' s
            (fun _ hx => hx) hu' hf' u hu₃ hku]
          exact releasedFields_releaseUpdate s
        exact cancelLoop_released_pres eid oid
          (fun u => keyFilter eid sn u = true) rest _ db'' hloop hestab t ht hk
      · exact hrel sn h₁ t ht hk

/-- C6: release evaluates each seat in order inside one all-or-nothing
batch: a missing seat yields NotFound, a booked seat or a seat not locked by
the caller yields Conflict — in every failing case the whole batch aborts
and the collection is unchanged — while a batch of seats all locked by the
caller succeeds, releasing every one of them. -/
theorem cancelSeats_batch_spec
    (eid oid : String) (seatNumbers : List String) (db : List Seat)
    (hoid : oid ≠ "") (hne : seatNumbers ≠ [])
    (hnd : seatNumbers.Nodup) (hu : keyUnique db) :
    ((∃ sn ∈ seatNumbers,
        (∀ t ∈ db, keyFilter eid sn t = false) ∨
        ∃ t ∈ db, keyFilter eid sn t = true ∧
          (t.status = .booked ∨ ¬(t.status = .locked ∧ t.lockOwner = some oid))) →
      ∃ sn' ∈ seatNumbers,
        ((∀ t ∈ db, keyFilter eid sn' t = false) ∧
          cancelSeats eid seatNumbers oid db = (.notFound sn', db)) ∨
        ((∃ t ∈ db, keyFilter eid sn' t = true ∧
          (t.status = .booked ∨ ¬(t.status = .locked ∧ t.lockOwner = some oid))) ∧
          cancelSeats eid seatNumbers oid db = (.conflict sn', db))) ∧
    ((∀ sn ∈ seatNumbers, ∃ t ∈ db, keyFilter eid sn t = true ∧
        t.status = .locked ∧ t.lockOwner = some oid) →
      (cancelSeats eid seatNumbers oid db).1 = .ok seatNumbers ∧
      ∀ sn ∈ seatNumbers, ∀ t ∈ (cancelSeats eid seatNumbers oid db).2,
        keyFilter eid sn t = true → releasedFields t) := by
  have hrun := cancelSeats_run eid seatNumbers oid db hne hoid
  constructor
  · intro hex
    have hex' : ∃ sn ∈ seatNumbers, db.find? (keyFilter eid sn) = none ∨
        ∃ s, db.find? (keyFilter eid sn) = some s ∧
          (s.status = .booked ∨ ¬(s.status = .locked ∧ s.lockOwner = some oid)) := by
      obtain ⟨sn, hsn, hfail⟩ := hex
      refine ⟨sn, hsn, ?_⟩
      rcases hfail with hmiss | ⟨t, ht, hk, hbad⟩
      · exact Or.inl (by
          rw [List.find?_eq_none]
          intro x hx
          simp [hmiss x hx])
      · refine Or.inr ⟨t, ?_, hbad⟩
        exact find?_eq_some_of_unique _ db t ht hk
          (fun u hu₁ hku => keyUnique_eq_of_mem db hu u t hu₁ ht
            ((keyFilter_key eid sn u hku).trans (keyFilter_key eid sn t hk).symm))
    obtain ⟨sn', hmem, hres⟩ :=
      cancelLoop_fails eid oid db seatNumbers db hnd (fun _ _ => rfl) hex'
    rcases hres with ⟨hnone, hloop⟩ | ⟨⟨s, hfind, hbad⟩, hloop⟩
    · refine ⟨sn', hmem, Or.inl ⟨?_, ?_⟩⟩
      · rw [List.find?_eq_none] at hnone
        intro t ht
        simpa using hnone t ht
      · rw [hrun, hloop]
    · refine ⟨sn', hmem, Or.inr ⟨⟨s, List.mem_of_find?_eq_some hfind,
        List.find?_some hfind, hbad⟩, ?_⟩⟩
      rw [hrun, hloop]
  · intro hall
    have hgood : ∀ sn ∈ seatNumbers, ∃ s, db.find? (keyFilter eid sn) = some s ∧
        s.status = .locked ∧ s.lockOwner = some oid := by
      intro sn hsn
      obtain ⟨t, ht, hk, hst, hown⟩ := hall sn hsn
      refine ⟨t, ?_, hst, hown⟩
      exact find?_eq_some_of_unique _ db t ht hk
        (fun u hu₁ hku => keyUnique_eq_of_mem db hu u t hu₁ ht
          ((keyFilter_key eid sn u hku).trans (keyFilter_key eid sn t hk).symm))
    obtain ⟨db'', hloop, hrel⟩ :=
      cancelLoop_ok_spec eid oid db seatNumbers db hnd hu (fun _ _ => rfl) hgood
    constructor
    · rw [hrun, hloop]
    · intro sn hsn t ht hk
      rw [hrun, hloop] at ht
      exact hrel sn hsn t ht hk

theorem cancelSeats_batch_spec_witness :
    ((∃ sn ∈ ["A", "C"],
        (∀ t ∈ [⟨"e", "A", .locked, some "u1", some 100, none⟩,
                ⟨"e", "C", .booked, none, none, some 3⟩],
          keyFilter "e" sn t = false) ∨
        ∃ t ∈ [⟨"e", "A", .locked, some "u1", some 100, none⟩,
               ⟨"e", "C", .booked, none, none, some 3⟩],
          keyFilter "e" sn t = true ∧
            (t.status = .booked ∨
              ¬(t.status = .locked ∧ t.lockOwner = some "u1"))) →
      ∃ sn' ∈ ["A", "C"],
        ((∀ t ∈ [⟨"e", "A", .locked, some "u1", some 100, none⟩,
                 ⟨"e", "C", .booked, none, none, some 3⟩],
            keyFilter "e" sn' t = false) ∧
          cancelSeats "e" ["A", "C"] "u1"
            [⟨"e", "A", .locked, some "u1", some 100, none⟩,
             ⟨"e", "C", .booked, none, none, some 3⟩] =
            (.notFound sn',
              [⟨"e", "A", .locked, some "u1", some 100, none⟩,
               ⟨"e", "C", .booked, none, none, some 3⟩])) ∨
        ((∃ t ∈ [⟨"e", "A", .locked, some "u1", some 100, none⟩,
                 ⟨"e", "C", .booked, none, none, some 3⟩],
            keyFilter "e" sn' t = true ∧
              (t.status = .booked ∨
                ¬(t.status = .locked ∧ t.lockOwner = some "u1"))) ∧
          cancelSeats "e" ["A", "C"] "u1"
            [⟨"e", "A", .locked, some "u1", some 100, none⟩,
             ⟨"e", "C", .booked, none, none, some 3⟩] =
            (.conflict sn',
              [⟨"e", "A", .locked, some "u1", some 100, none⟩,
               ⟨"e", "C", .booked, none, none, some 3⟩]))) ∧
    ((∀ sn ∈ ["A", "C"],
        ∃ t ∈ [⟨"e", "A", .locked, some "u1", some 100, none⟩,
               ⟨"e", "C", .booked, none, none, some 3⟩],
          keyFilter "e" sn t = true ∧
            t.status = .locked ∧ t.lockOwner = some "u1") →
      (cancelSeats "e" ["A", "C"] "u1"
        [⟨"e", "A", .locked, some "u1", some 100, none⟩,
         ⟨"e", "C", .booked, none, none, some 3⟩]).1 = .ok ["A", "C"] ∧
      ∀ sn ∈ ["A", "C"],
        ∀ t ∈ (cancelSeats "e" ["A", "C"] "u1"
          [⟨"e", "A", .locked, some "u1", some 100, none⟩,
           ⟨"e", "C", .booked, none, none, some 3⟩]).2,
          keyFilter "e" sn t = true → releasedFields t) :=
  cancelSeats_batch_spec "e" "u1" ["A", "C"]
    [⟨"e", "A", .locked, some "u1", some 100, none⟩,
     ⟨"e", "C", .booked, none, none, some 3⟩]
    (by decide) (by decide) (by decide) (by decide)

/-! ### Duplicate seat numbers in one acquire batch -/

theorem acquireFilter_of_available (eid sn : String) (now : Int) (s : Seat)
    (hk : keyFilter eid sn s = true) (hav : s.status = .available) :
    acquireFilter eid sn now s = true := by
  simp [acquireFilter, hk, hav]

/-- Existence of a `Q`-record survives an update whose filter excludes
`Q`-records (the replaced record cannot be the witness). -/
theorem updateFirst_exists_of_excl (p : Seat → Bool) (f : Seat → Seat)
    (Q : Seat → Prop) (l : List Seat)
    (hpq : ∀ x, p x = true → Q x → False)
    (h : ∃ t ∈ l, Q t) : ∃ t ∈ (updateFirst p f l).2, Q t := by
  cases hf : l.find? p with
  | none =>
    rw [(updateFirst_of_none p f l hf : updateFirst p f l = (none, l))]
    exact h
  | some s =>
    obtain ⟨l₁, l₂, hldec, _, hps, _, hsnd⟩ := updateFirst_decomp p f l s hf
    rw [hsnd]
    obtain ⟨t, ht, hQ⟩ := h
    rw [hldec] at ht
    rcases List.mem_append.mp ht with h1 | h1
    · exact ⟨t, List.mem_append.mpr (Or.inl h1), hQ⟩
    · rcases List.mem_cons.mp h1 with h2 | h2
      · exact absurd (h2 ▸ hQ) (fun hq => hpq s hps hq)
      · exact ⟨t, List.mem_append.mpr (Or.inr (List.mem_cons_of_mem _ h2)), hQ⟩

/-- Acquire over a batch in which some seat number recurs: the first
occurrence locks the seat with expiry `exp > now`, so a later occurrence
cannot match and the loop aborts.  `P` is the list of already-processed
seat numbers. -/
theorem lockLoop_duplicate (eid oid : String) (now exp : Int)
    (orig : List Seat) (hexp : now < exp) (sns : List String) :
    ∀ (P : List String) (db' acc : List Seat),
      keyUnique db' →
      (∀ sn ∈ P, ∀ t ∈ db', keyFilter eid sn t = true →
        t.status = .locked ∧ t.lockExpiresAt = some exp) →
      (∀ sn ∈ sns, sn ∉ P →
        ∃ t ∈ db', keyFilter eid sn t = true ∧ t.status = .available) →
      ((∃ sn ∈ sns, sn ∈ P) ∨ ¬ sns.Nodup) →
      ∃ sn' ∈ sns, (sn' ∈ P ∨ 2 ≤ sns.count sn') ∧
        lockLoop eid oid now exp orig sns db' acc = (.conflict sn', orig) := by
  induction sns with
  | nil =>
    intro P db' acc _ _ _ hcol
    rcases hcol with ⟨sn, hsn, _⟩ | hnd
    · simp at hsn
    · exact absurd List.nodup_nil hnd
  | cons sn₀ rest ih =>
    intro P db' acc hu' hlocked havail hcol
    by_cases hP : sn₀ ∈ P
    · -- second occurrence: its record is locked with a future expiry
      have hnm : noAcquireMatch eid sn₀ now db' := by
        intro t ht
        by_cases hk : keyFilter eid sn₀ t = true
        · obtain ⟨hst, he⟩ := hlocked sn₀ hP t ht hk
          exact acquireFilter_of_validLock eid sn₀ now t hst exp he hexp
        · exact acquireFilter_false_of_key_false eid sn₀ now t (by simpa using hk)
      refine ⟨sn₀, List.mem_cons_self sn₀ rest, Or.inl hP, ?_⟩
      exact lockLoop_cons_none eid oid now exp orig db' acc sn₀ rest
        ((noAcquireMatch_iff_find? eid sn₀ now db').mp hnm)
    · -- first occurrence: an available record matches and is locked
      obtain ⟨t₀, ht₀, hk₀, hav₀⟩ := havail sn₀ (List.mem_cons_self sn₀ rest) hP
      obtain ⟨s, hf⟩ := find?_isSome_of_exists (acquireFilter eid sn₀ now) db'
        ⟨t₀, ht₀, acquireFilter_of_available eid sn₀ now t₀ hk₀ hav₀⟩
      have hu₂ : keyUnique (updateFirst (acquireFilter eid sn₀ now)
          (acquireUpdate oid exp) db').2 :=
        keyUnique_updateFirst _ _ (acquireUpdate_key oid exp) db' hu'
      have hlocked₂ : ∀ sn ∈ sn₀ :: P,
          ∀ t ∈ (updateFirst (acquireFilter eid sn₀ now) (acquireUpdate oid exp) db').2,
            keyFilter eid sn t = true →
              t.status = .locked ∧ t.lockExpiresAt = some exp := by
        intro sn hsn t ht hk
        rcases List.mem_cons.mp hsn with h1 | h1
        · subst h1
          rw [updateFirst_key_all (acquireFilter eid sn now) (acquireUpdate oid exp)
            eid sn db' s (fun x hx => acquireFilter_key eid sn now x hx) hu' hf t ht hk]
          exact ⟨rfl, rfl⟩
        · rcases updateFirst_mem _ _ db' t ht with h2 | ⟨y, _, hpy, hty⟩
          · exact hlocked sn h1 t h2 hk
          · have hysn : y.seatNumber = sn₀ :=
              ((keyFilter_iff eid sn₀ y).mp (acquireFilter_key eid sn₀ now y hpy)).2
            have hts : t.seatNumber = sn₀ := by rw [hty]; exact hysn
            have h3 : t.seatNumber = sn := ((keyFilter_iff eid sn t).mp hk).2
            have hsn₀ : sn = sn₀ := by rw [← h3, hts]
            exact absurd (hsn₀ ▸ h1) hP
      have havail₂ : ∀ sn ∈ rest, sn ∉ sn₀ :: P →
          ∃ t ∈ (updateFirst (acquireFilter eid sn₀ now) (acquireUpdate oid exp) db').2,
            keyFilter eid sn t = true ∧ t.status = .available := by
        intro sn hsn hnp
        have hne₀ : sn ≠ sn₀ := fun he => hnp (he ▸ List.mem_cons_self sn₀ P)
        have hnpP : sn ∉ P := fun he => hnp (List.mem_cons_of_mem sn₀ he)
        refine updateFirst_exists_of_excl _ _ _ db' ?_
          (havail sn (List.mem_cons_of_mem sn₀ hsn) hnpP)
        intro x hx ⟨hkx, _⟩
        have h1 : x.seatNumber = sn₀ :=
          ((keyFilter_iff eid sn₀ x).mp (acquireFilter_key eid sn₀ now x hx)).2
        have h2 : x.seatNumber = sn := ((keyFilter_iff eid sn x).mp hkx).2
        exact hne₀ (by rw [← h2, h1])
      have hcol₂ : (∃ sn ∈ rest, sn ∈ sn₀ :: P) ∨ ¬ rest.Nodup := by
        rcases hcol with ⟨sn, hsn, hsnP⟩ | hnd
        · rcases List.mem_cons.mp hsn with h1 | h1
          · exact absurd (h1 ▸ hsnP) hP
          · exact Or.inl ⟨sn, h1, List.mem_cons_of_mem sn₀ hsnP⟩
        · by_cases hmem : sn₀ ∈ rest
          · exact Or.inl ⟨sn₀, hmem, List.mem_cons_self sn₀ P⟩
          · refine Or.inr (fun hndr => hnd ?_)
            exact List.nodup_cons.mpr ⟨hmem, hndr⟩
      obtain ⟨sn', hmem', hdup', hres⟩ :=
        ih (sn₀ :: P) _ (acquireUpdate oid exp s :: acc) hu₂ hlocked₂ havail₂ hcol₂
      refine ⟨sn', List.mem_cons_of_mem sn₀ hmem', ?_,
        by rw [lockLoop_cons_some eid oid now exp orig db' acc sn₀ rest s hf, hres]⟩
      rcases hdup' with h1 | h1
      · rcases List.mem_cons.mp h1 with h2 | h2
        · subst h2
          refine Or.inr ?_
          have : 1 ≤ rest.count sn' := List.one_le_count_iff.mpr hmem'
          rw [List.count_cons_self]
          omega
        · exact Or.inl h2
      · refine Or.inr ?_
        calc 2 ≤ rest.count sn' := h1
          _ ≤ (sn₀ :: rest).count sn' := by
            rw [List.count_cons]
            omega

/-- C8 counterexample: with `ttlSeconds = 0` the expiry stamped by the first
occurrence equals `now`, which the acquire filter already treats as stale
(`lockExpiresAt ≤ now`), so the duplicate second occurrence matches again
and the batch commits: no Conflict is returned and the seat ends up locked. -/
theorem lockSeats_duplicate_ttl0_counterexample :
    lockSeats "e" ["A", "A"] "u" 0 0 [⟨"e", "A", .available, none, none, none⟩] =
      (.ok [⟨"e", "A", .locked, some "u", some 0, none⟩,
            ⟨"e", "A", .locked, some "u", some 0, none⟩],
       [⟨"e", "A", .locked, some "u", some 0, none⟩]) ∧
    (∀ sn, (lockSeats "e" ["A", "A"] "u" 0 0
        [⟨"e", "A", .available, none, none, none⟩]).1 ≠ .conflict sn) ∧
    (lockSeats "e" ["A", "A"] "u" 0 0
        [⟨"e", "A", .available, none, none, none⟩]).2 ≠
      [⟨"e", "A", .available, none, none, none⟩] := by
  have h : lockSeats "e" ["A", "A"] "u" 0 0
      [⟨"e", "A", .available, none, none, none⟩] =
      (.ok [⟨"e", "A", .locked, some "u", some 0, none⟩,
            ⟨"e", "A", .locked, some "u", some 0, none⟩],
       [⟨"e", "A", .locked, some "u", some 0, none⟩]) := by decide
  refine ⟨h, ?_, by decide⟩
  intro sn hc
  rw [h] at hc
  exact LockResult.noConfusion hc

/-- C8 (amended): for every acquire whose `ttlSeconds` is positive and whose
seat-number list repeats a seat (over seats that exist and are available in
a key-unique collection), the operation returns Conflict naming a seat that
occurs more than once in the batch, and the collection is unchanged. -/
theorem lockSeats_duplicate_conflict
    (eid oid : String) (seatNumbers : List String) (ttl now : Int)
    (db : List Seat)
    (hoid : oid ≠ "") (httl : 0 < ttl)
    (hu : keyUnique db)
    (hdup : ¬ seatNumbers.Nodup)
    (hav : ∀ sn ∈ seatNumbers, ∃ t ∈ db, keyFilter eid sn t = true ∧
      t.status = .available) :
    ∃ sn', 2 ≤ seatNumbers.count sn' ∧
      lockSeats eid seatNumbers oid ttl now db = (.conflict sn', db) := by
  have hne : seatNumbers ≠ [] := by
    intro h
    rw [h] at hdup
    exact hdup List.nodup_nil
  have hexp : now < now + ttl * 1000 := by omega
  rw [lockSeats_run eid seatNumbers oid ttl now db hne hoid]
  obtain ⟨sn', _, hdup', hres⟩ :=
    lockLoop_duplicate eid oid now (now + ttl * 1000) db hexp seatNumbers
      [] db [] hu (by simp) (fun sn hsn _ => hav sn hsn) (Or.inr hdup)
  rcases hdup' with h1 | h1
  · simp at h1
  · exact ⟨sn', h1, hres⟩

theorem lockSeats_duplicate_conflict_witness :
    ∃ sn', 2 ≤ (["A", "A"] : List String).count sn' ∧
      lockSeats "e" ["A", "A"] "u" 60 0
        [⟨"e", "A", .available, none, none, none⟩] =
      (.conflict sn', [⟨"e", "A", .available, none, none, none⟩]) :=
  lockSeats_duplicate_conflict "e" "u" ["A", "A"] 60 0
    [⟨"e", "A", .available, none, none, none⟩]
    (by decide) (by decide) (by decide) (by decide) (by decide)

end TicketBooking
